import Mathlib

/-!
# WXfiles: the file scanner (`src/fileScanner.js`)

A shallow embedding of the `FileScanner` class.

* JavaScript strings are Lean strings; `path`, `os`, `String.prototype.toLowerCase`,
  `Date.prototype.toISOString` and the id generator (`Date.now() + Math.random()...`) belong to
  the Node runtime, not to the repository, and are gathered in a `Platform` record that every
  function takes as a parameter.
* `fs.access`, `fs.readdir` and `fs.stat` are a `FileSystem` record; a rejected promise is
  `false` / `none`.  The file system does not change during one call.
* Every `fs` call is recorded in a probe log; `console.log` / `console.error` are not modelled.
* `recursiveScan` is the only unbounded recursion: it takes fuel and returns `none` when the
  fuel runs out, and so do its callers.
* `Array.prototype.sort` is a stable sort by the comparator; the frequency tables of `getStats`
  are object literals, with the properties they inherit from `Object.prototype`.
* The concrete platform `posix` and the file systems built by `mkFileSystem` serve the
  statements about one concrete input; every general statement is over all platforms and file
  systems.
-/

namespace WXFiles

/-! ## Runtime and file system -/

/-- What `dirent.isDirectory()` and `dirent.isFile()` can tell about a directory entry. -/
inductive DirentKind where
  | file
  | directory
  | other
deriving DecidableEq, Repr

/-- One item of `fs.readdir(p, { withFileTypes: true })`. -/
structure Dirent where
  name : String
  kind : DirentKind
deriving DecidableEq, Repr

/-- The method `dirent.isDirectory()`. -/
def Dirent.isDirectory (d : Dirent) : Bool := decide (d.kind = DirentKind.directory)

/-- The method `dirent.isFile()`. -/
def Dirent.isFile (d : Dirent) : Bool := decide (d.kind = DirentKind.file)

/-- The fields of `fs.Stats` the scanner reads; the two dates are in milliseconds. -/
structure Stats where
  size : Nat
  birthtime : Int
  mtime : Int
deriving DecidableEq, Repr

/-- The three `fs.promises` calls of the scanner. -/
structure FileSystem where
  /-- Whether `fs.access(p)` resolves. -/
  access : String → Bool
  /-- Result of `fs.readdir(p, { withFileTypes: true })`, `none` when it rejects. -/
  readdir : String → Option (List Dirent)
  /-- Result of `fs.stat(p)`, `none` when it rejects. -/
  stat : String → Option Stats

/-- The Node runtime functions and process environment the scanner calls. -/
structure Platform where
  /-- Variadic `path.join`. -/
  join : List String → String
  /-- Function `path.extname`. -/
  extname : String → String
  /-- Method `String.prototype.toLowerCase`. -/
  toLowerCase : String → String
  /-- Method `Date.prototype.toISOString`, on a time in milliseconds. -/
  toISOString : Int → String
  /-- Value of `os.homedir()`. -/
  homedir : String
  /-- Value of `process.env.LOCALAPPDATA`; the empty string when unset (both are falsy). -/
  localAppData : String
  /-- The string `Date.now() + Math.random().toString(36).substr(2, 9)` drawn for the entry
  pushed when `this.files` already holds `n` entries. -/
  newId : Nat → String

/-- One `fs` call. -/
inductive Probe where
  | access (p : String)
  | readdir (p : String)
  | stat (p : String)
deriving DecidableEq, Repr

/-! ## Data model -/

/-- An element of `this.files`. -/
structure Entry where
  id : String
  name : String
  path : String
  size : Nat
  type : String
  createTime : Int
  modifyTime : Int
  user : String
  yearMonth : String
deriving DecidableEq, Repr

/-- The fields of a `FileScanner` instance; `cache = none` is `null`. -/
structure Scanner where
  customPath : String
  useDefaultPaths : Bool
  wechatPaths : List String
  files : List Entry
  cache : Option (List Entry)
  cacheTime : Int
  cacheExpiry : Int
deriving DecidableEq, Repr

/-- The constructor `new FileScanner(customPath, useDefaultPaths)`. -/
def Scanner.new (customPath : String) (useDefaultPaths : Bool) : Scanner :=
  { customPath := customPath
    useDefaultPaths := useDefaultPaths
    wechatPaths := []
    files := []
    cache := none
    cacheTime := 0
    cacheExpiry := 300000 }

/-- Method `clearCache`. -/
def clearCache (s : Scanner) : Scanner :=
  { s with cache := none, cacheTime := 0 }

/-- Method `setCustomPath`. -/
def setCustomPath (s : Scanner) (path : String) : Scanner :=
  clearCache { s with customPath := path }

/-- Method `setUseDefaultPaths`. -/
def setUseDefaultPaths (s : Scanner) (use : Bool) : Scanner :=
  clearCache { s with useDefaultPaths := use }

/-- Method `isCacheValid`, as a truth value: `this.cache && (now - cacheTime) < cacheExpiry`,
where `now` is the value `Date.now()` returns.  An array, even an empty one, is truthy. -/
def isCacheValid (s : Scanner) (now : Int) : Bool :=
  s.cache.isSome && decide (now - s.cacheTime < s.cacheExpiry)

/-! ## Type classifier -/

set_option linter.unusedVariables false in
/-- Method `getFileType(fileName, defaultType)`. -/
def getFileType (P : Platform) (fileName : String) (defaultType : String) : String :=
  let ext := P.toLowerCase (P.extname fileName)
  if ext ∈ [".jpg", ".jpeg", ".png", ".gif", ".bmp", ".webp"] then "image"
  else if ext ∈ [".mp4", ".avi", ".mov", ".wmv", ".flv", ".mkv"] then "video"
  else if ext ∈ [".mp3", ".wav", ".aac", ".flac", ".ogg", ".amr"] then "audio"
  else if ext ∈ [".doc", ".docx", ".xls", ".xlsx", ".ppt", ".pptx", ".pdf", ".txt", ".md"] then "file"
  else if ext ∈ [".zip", ".rar", ".7z", ".tar", ".gz", ".bz2"] then "archive"
  else "other"

/-! ## Inclusion filter -/

/-- The array `excludedExtensions` of `shouldIncludeFile`. -/
def excludedExtensions : List String := [".dat", ".ini", ".log", ".tmp", ".temp", ".db"]

/-- The array `excludedNames` of `shouldIncludeFile`. -/
def excludedNames : List String := ["Thumbs.db", "desktop.ini", "config"]

/-- The constant `minFileSize` of `shouldIncludeFile`. -/
def minFileSize : Nat := 1024

/-- Matcher for the tail of `/^\d+(_\d+)*$/`: `inDigits` tells whether the character just
read was a digit of the current group (`\d` is `[0-9]`). -/
def numericNameGo : Bool → List Char → Bool
  | inDigits, [] => inDigits
  | inDigits, c :: cs =>
    if c.isDigit then numericNameGo true cs
    else if c = '_' && inDigits then numericNameGo false cs
    else false

/-- The test `/^\d+(_\d+)*$/.test(fileName)`. -/
def numericName (fileName : String) : Bool := numericNameGo false fileName.data

/-- The text of `(_\d+)*` for given groups of digits: each group after a `_`. -/
def underscoreGroups : List (List Char) → List Char
  | [] => []
  | g :: gs => '_' :: (g ++ underscoreGroups gs)

/-- The language of `^\d+(_\d+)*$`, read off the pattern: a non-empty run of digits, then any
number of groups made of `_` and a non-empty run of digits. -/
def NumericPattern (cs : List Char) : Prop :=
  ∃ d gs, d ≠ [] ∧ (∀ c ∈ d, c.isDigit = true) ∧
    (∀ g ∈ gs, g ≠ [] ∧ ∀ c ∈ g, c.isDigit = true) ∧ cs = d ++ underscoreGroups gs

/-- Method `shouldIncludeFile(fileName, filePath)`: the boolean it resolves to and the `fs`
calls it makes. -/
def shouldIncludeFile (P : Platform) (fs : FileSystem) (fileName filePath : String) :
    Bool × List Probe :=
  let ext := P.toLowerCase (P.extname fileName)
  if ext ∈ excludedExtensions then (false, [])
  else if fileName ∈ excludedNames then (false, [])
  else if numericName fileName then (false, [])
  else
    match fs.stat filePath with
    | some stats =>
      if stats.size < minFileSize then (false, [Probe.stat filePath])
      else (true, [Probe.stat filePath])
    | none => (false, [Probe.stat filePath])

/-! ## Traverser -/

/-- The array `this.files` being filled, and the `fs` calls made so far. -/
structure ScanState where
  files : List Entry
  probes : List Probe
deriving DecidableEq, Repr

/-- Record one `fs` call. -/
def ScanState.probe (st : ScanState) (p : Probe) : ScanState :=
  { st with probes := st.probes ++ [p] }

/-- The call `this.files.push(e)`. -/
def ScanState.push (st : ScanState) (e : Entry) : ScanState :=
  { st with files := st.files ++ [e] }

/-- The `for (const fileName of files)` loop of `scanMonthFolder`.  A rejected `fs.stat` ends
the loop: it is caught by the `try` around it. -/
def scanMonthFiles (P : Platform) (fs : FileSystem) (monthPath type userFolder yearMonth : String) :
    List String → ScanState → ScanState
  | [], st => st
  | fileName :: rest, st =>
    let filePath := P.join [monthPath, fileName]
    let inc := shouldIncludeFile P fs fileName filePath
    let st1 : ScanState := { st with probes := st.probes ++ inc.2 }
    if inc.1 then
      match fs.stat filePath with
      | none => st1.probe (Probe.stat filePath)
      | some stats =>
        scanMonthFiles P fs monthPath type userFolder yearMonth rest
          ((st1.probe (Probe.stat filePath)).push
            { id := P.newId st1.files.length
              name := fileName
              path := filePath
              size := stats.size
              type := getFileType P fileName type
              createTime := stats.birthtime
              modifyTime := stats.mtime
              user := userFolder
              yearMonth := yearMonth })
    else scanMonthFiles P fs monthPath type userFolder yearMonth rest st1

/-- Method `scanMonthFolder(monthPath, type, userFolder, yearMonth)`. -/
def scanMonthFolder (P : Platform) (fs : FileSystem) (monthPath type userFolder yearMonth : String)
    (st : ScanState) : ScanState :=
  match fs.readdir monthPath with
  | none => st.probe (Probe.readdir monthPath)
  | some items =>
    let files := (items.filter Dirent.isFile).map Dirent.name
    scanMonthFiles P fs monthPath type userFolder yearMonth files (st.probe (Probe.readdir monthPath))

/-- The `for (const yearMonth of yearMonths)` loop of `scanCategoryFolder`. -/
def scanCategoryMonths (P : Platform) (fs : FileSystem) (categoryPath type userFolder : String) :
    List String → ScanState → ScanState
  | [], st => st
  | yearMonth :: rest, st =>
    let monthPath := P.join [categoryPath, yearMonth]
    scanCategoryMonths P fs categoryPath type userFolder rest
      (scanMonthFolder P fs monthPath type userFolder yearMonth st)

/-- Method `scanCategoryFolder(categoryPath, type, userFolder)`. -/
def scanCategoryFolder (P : Platform) (fs : FileSystem) (categoryPath type userFolder : String)
    (st : ScanState) : ScanState :=
  match fs.readdir categoryPath with
  | none => st.probe (Probe.readdir categoryPath)
  | some items =>
    let yearMonths := (items.filter Dirent.isDirectory).map Dirent.name
    scanCategoryMonths P fs categoryPath type userFolder yearMonths
      (st.probe (Probe.readdir categoryPath))

/-- The array `categories` of `scanFileStorage` and `scanMsgAttach`. -/
def categories : List String := ["Image", "Video", "File", "Audio"]

/-- The `for (const category of categories)` loop shared by `scanFileStorage` and
`scanMsgAttach`, over the folder `basePath`. -/
def scanCategories (P : Platform) (fs : FileSystem) (basePath userFolder : String) :
    List String → ScanState → ScanState
  | [], st => st
  | category :: rest, st =>
    let categoryPath := P.join [basePath, category]
    let st1 := st.probe (Probe.access categoryPath)
    scanCategories P fs basePath userFolder rest
      (if fs.access categoryPath then
        scanCategoryFolder P fs categoryPath (P.toLowerCase category) userFolder st1
      else st1)

/-- Method `scanFileStorage(fileStoragePath, userFolder)`. -/
def scanFileStorage (P : Platform) (fs : FileSystem) (fileStoragePath userFolder : String)
    (st : ScanState) : ScanState :=
  scanCategories P fs fileStoragePath userFolder categories st

/-- The `for (const subFolder of subFolders)` loop of `scanMsgAttach`. -/
def scanMsgAttachSubs (P : Platform) (fs : FileSystem) (msgAttachPath userFolder : String) :
    List String → ScanState → ScanState
  | [], st => st
  | subFolder :: rest, st =>
    let subPath := P.join [msgAttachPath, subFolder]
    scanMsgAttachSubs P fs msgAttachPath userFolder rest
      (scanCategories P fs subPath userFolder categories st)

/-- Method `scanMsgAttach(msgAttachPath, userFolder)`. -/
def scanMsgAttach (P : Platform) (fs : FileSystem) (msgAttachPath userFolder : String)
    (st : ScanState) : ScanState :=
  match fs.readdir msgAttachPath with
  | none => st.probe (Probe.readdir msgAttachPath)
  | some items =>
    let subFolders := (items.filter Dirent.isDirectory).map Dirent.name
    scanMsgAttachSubs P fs msgAttachPath userFolder subFolders
      (st.probe (Probe.readdir msgAttachPath))

/-- The `for (const item of items)` loop of `recursiveScan`; `recur` is the recursive call.
A rejected `fs.stat` ends the loop: it is caught by the `try` around it. -/
def recursiveScanItems (P : Platform) (fs : FileSystem)
    (recur : String → ScanState → Option ScanState) (folderPath userFolder : String) :
    List Dirent → ScanState → Option ScanState
  | [], st => some st
  | item :: rest, st =>
    let itemPath := P.join [folderPath, item.name]
    if item.isDirectory then
      match recur itemPath st with
      | none => none
      | some st1 => recursiveScanItems P fs recur folderPath userFolder rest st1
    else if item.isFile then
      let inc := shouldIncludeFile P fs item.name itemPath
      let st1 : ScanState := { st with probes := st.probes ++ inc.2 }
      if inc.1 then
        match fs.stat itemPath with
        | none => some (st1.probe (Probe.stat itemPath))
        | some stats =>
          recursiveScanItems P fs recur folderPath userFolder rest
            ((st1.probe (Probe.stat itemPath)).push
              { id := P.newId st1.files.length
                name := item.name
                path := itemPath
                size := stats.size
                type := getFileType P item.name "other"
                createTime := stats.birthtime
                modifyTime := stats.mtime
                user := userFolder
                yearMonth := String.mk ((P.toISOString stats.mtime).data.take 7) })
      else recursiveScanItems P fs recur folderPath userFolder rest st1
    else recursiveScanItems P fs recur folderPath userFolder rest st

/-- Method `recursiveScan(folderPath, userFolder)`, with fuel bounding the nesting depth. -/
def recursiveScan (P : Platform) (fs : FileSystem) :
    Nat → String → String → ScanState → Option ScanState
  | 0, _, _, _ => none
  | fuel + 1, folderPath, userFolder, st =>
    match fs.readdir folderPath with
    | none => some (st.probe (Probe.readdir folderPath))
    | some items =>
      recursiveScanItems P fs (fun p s => recursiveScan P fs fuel p userFolder s)
        folderPath userFolder items (st.probe (Probe.readdir folderPath))

/-- The `for (const subFolder of subFolders)` loop of `scanMsgFolder`. -/
def scanMsgSubs (P : Platform) (fs : FileSystem) (fuel : Nat) (msgPath userFolder : String) :
    List String → ScanState → Option ScanState
  | [], st => some st
  | subFolder :: rest, st =>
    let subPath := P.join [msgPath, subFolder]
    match recursiveScan P fs fuel subPath userFolder st with
    | none => none
    | some st1 => scanMsgSubs P fs fuel msgPath userFolder rest st1

/-- Method `scanMsgFolder(msgPath, userFolder)`. -/
def scanMsgFolder (P : Platform) (fs : FileSystem) (fuel : Nat) (msgPath userFolder : String)
    (st : ScanState) : Option ScanState :=
  match fs.readdir msgPath with
  | none => some (st.probe (Probe.readdir msgPath))
  | some items =>
    let subFolders := (items.filter Dirent.isDirectory).map Dirent.name
    scanMsgSubs P fs fuel msgPath userFolder subFolders (st.probe (Probe.readdir msgPath))

/-! ## Path resolver -/

/-- The constant `normalPath` of `getWeChatPaths`. -/
def normalPath (P : Platform) : String := P.join [P.homedir, "Documents", "WeChat Files"]

/-- The constant `storePath` of `getWeChatPaths`. -/
def storePath (P : Platform) : String :=
  P.join [if P.localAppData ≠ "" then P.localAppData else P.join [P.homedir, "AppData", "Local"],
    "Packages", "TencentWeChatLimited.forWindows10_sdtnhv12zgd7a", "LocalCache", "Roaming",
    "Tencent", "WeChatAppStore", "WeChatAppStore Files"]

/-- The constant `newVersionPath` of `getWeChatPaths`. -/
def newVersionPath (P : Platform) : String := P.join [P.homedir, "Documents", "xwechat_files"]

/-- One `try { await fs.access(p); paths.push(p) } catch {}` block of `getWeChatPaths`. -/
def probeRoot (fs : FileSystem) (p : String) (acc : List String × List Probe) :
    List String × List Probe :=
  (if fs.access p then acc.1 ++ [p] else acc.1, acc.2 ++ [Probe.access p])

/-- Method `getWeChatPaths`: the array it resolves to and the `fs` calls it makes. -/
def getWeChatPaths (P : Platform) (fs : FileSystem) (s : Scanner) : List String × List Probe :=
  let acc0 : List String × List Probe := ([], [])
  let acc1 := if s.customPath ≠ "" then probeRoot fs s.customPath acc0 else acc0
  if s.useDefaultPaths then
    probeRoot fs (newVersionPath P) (probeRoot fs (storePath P) (probeRoot fs (normalPath P) acc1))
  else acc1

/-! ## Catalog: scanning -/

/-- Body of the `for (const userFolder of userFolders)` loop of `scanWeChatFiles`. -/
def scanUser (P : Platform) (fs : FileSystem) (fuel : Nat) (wechatPath userFolder : String)
    (st : ScanState) : Option ScanState :=
  let userPath := P.join [wechatPath, userFolder]
  let fileStoragePath := P.join [userPath, "FileStorage"]
  let st1 := st.probe (Probe.access fileStoragePath)
  let st2 := if fs.access fileStoragePath then scanFileStorage P fs fileStoragePath userFolder st1
    else st1
  let msgPath := P.join [userPath, "msg"]
  let st3 := st2.probe (Probe.access msgPath)
  match (if fs.access msgPath then scanMsgFolder P fs fuel msgPath userFolder st3 else some st3) with
  | none => none
  | some st4 =>
    let msgAttachPath := P.join [userPath, "FileStorage", "MsgAttach"]
    let st5 := st4.probe (Probe.access msgAttachPath)
    some (if fs.access msgAttachPath then scanMsgAttach P fs msgAttachPath userFolder st5 else st5)

/-- The `for (const userFolder of userFolders)` loop of `scanWeChatFiles`. -/
def scanUsers (P : Platform) (fs : FileSystem) (fuel : Nat) (wechatPath : String) :
    List String → ScanState → Option ScanState
  | [], st => some st
  | userFolder :: rest, st =>
    match scanUser P fs fuel wechatPath userFolder st with
    | none => none
    | some st1 => scanUsers P fs fuel wechatPath rest st1

/-- Body of the `for (const wechatPath of this.wechatPaths)` loop of `scanWeChatFiles`: a
rejected `fs.access` or `fs.readdir` is caught and the root is left. -/
def scanRoot (P : Platform) (fs : FileSystem) (fuel : Nat) (wechatPath : String)
    (st : ScanState) : Option ScanState :=
  let st1 := st.probe (Probe.access wechatPath)
  if fs.access wechatPath then
    let st2 := st1.probe (Probe.readdir wechatPath)
    match fs.readdir wechatPath with
    | none => some st2
    | some items =>
      let userFolders := (items.filter Dirent.isDirectory).map Dirent.name
      scanUsers P fs fuel wechatPath userFolders st2
  else some st1

/-- The `for (const wechatPath of this.wechatPaths)` loop of `scanWeChatFiles`. -/
def scanRoots (P : Platform) (fs : FileSystem) (fuel : Nat) :
    List String → ScanState → Option ScanState
  | [], st => some st
  | wechatPath :: rest, st =>
    match scanRoot P fs fuel wechatPath st with
    | none => none
    | some st1 => scanRoots P fs fuel rest st1

/-- Lines 104-180 of `scanWeChatFiles`, the part after the cache check: resolve the roots,
walk them, store the snapshot.  `nowEnd` is the value of `Date.now()` stored in `cacheTime`. -/
def scanWeChatFilesUncached (P : Platform) (fs : FileSystem) (fuel : Nat) (nowEnd : Int)
    (s : Scanner) : Option (List Entry × Scanner × List Probe) :=
  let roots := getWeChatPaths P fs s
  let s1 : Scanner := { s with wechatPaths := roots.1, files := [] }
  if roots.1.length = 0 then
    some (s1.files, s1, roots.2)
  else
    match scanRoots P fs fuel roots.1 { files := [], probes := roots.2 } with
    | none => none
    | some st =>
      some (st.files, { s1 with files := st.files, cache := some st.files, cacheTime := nowEnd },
        st.probes)

/-- Method `scanWeChatFiles`: the array it resolves to, the scanner afterwards and the `fs`
calls it makes.  `now` is the value of `Date.now()` read by `isCacheValid`. -/
def scanWeChatFiles (P : Platform) (fs : FileSystem) (fuel : Nat) (now nowEnd : Int)
    (s : Scanner) : Option (List Entry × Scanner × List Probe) :=
  if isCacheValid s now then
    some (s.cache.getD [], s, [])
  else
    scanWeChatFilesUncached P fs fuel nowEnd s

/-! ## Catalog: queries -/

/-- The test `haystack.includes(needle)` through its prefixes: some suffix of `haystack` starts
with `needle`. -/
def includesChars (needle : List Char) : List Char → Bool
  | [] => needle.isEmpty
  | c :: cs => needle.isPrefixOf (c :: cs) || includesChars needle cs

/-- Method `String.prototype.includes`. -/
def includes (haystack needle : String) : Bool := includesChars needle.data haystack.data

/-- Method `searchFiles(keyword)`; `none` is an absent (`undefined`) keyword. -/
def searchFiles (P : Platform) (s : Scanner) (keyword : Option String) : List Entry :=
  match keyword with
  | none => s.files
  | some k =>
    if k = "" then s.files
    else s.files.filter (fun file => includes (P.toLowerCase file.name) (P.toLowerCase k))

/-- Method `filterByType(type)`. -/
def filterByType (s : Scanner) (type : String) : List Entry :=
  if type = "all" then s.files
  else s.files.filter (fun file => decide (file.type = type))

/-- The comparator of `sortByTime`: the number the arrow function returns. -/
def compareTime (ascending : Bool) (a b : Entry) : Int :=
  if ascending then a.modifyTime - b.modifyTime else b.modifyTime - a.modifyTime

/-- Insertion of `a`, which stood before all of the list, into the list sorted by `cmp`: in
front of the first element it does not have to come after. -/
def stableInsert (cmp : Entry → Entry → Int) (a : Entry) : List Entry → List Entry
  | [] => [a]
  | b :: l => if cmp a b ≤ 0 then a :: b :: l else b :: stableInsert cmp a l

/-- Method `Array.prototype.sort(cmp)` on a fresh copy: a stable sort, elements the comparator
calls equal keep their order. -/
def stableSort (cmp : Entry → Entry → Int) : List Entry → List Entry
  | [] => []
  | a :: l => stableInsert cmp a (stableSort cmp l)

/-- Method `sortByTime(ascending)`. -/
def sortByTime (s : Scanner) (ascending : Bool) : List Entry :=
  stableSort (compareTime ascending) s.files

/-- A value held by a frequency table of `getStats`: `(x || 0) + 1` is a number, or a string
when `x` is not a number. -/
inductive JSValue where
  | number (n : Nat)
  | string (s : String)
deriving DecidableEq, Repr

/-- The own properties of an object created by an empty object literal, in insertion order;
its prototype is `Object.prototype`.  (JavaScript enumerates integer-like keys first; no
statement here depends on the order.) -/
abbrev JSObject := List (String × JSValue)

/-- The properties an object literal inherits from `Object.prototype`, each with the string
that `+ 1` converts its value to. -/
def objectPrototype : List (String × String) :=
  [("constructor", "function Object() \x7b [native code] \x7d"),
   ("__defineGetter__", "function __defineGetter__() \x7b [native code] \x7d"),
   ("__defineSetter__", "function __defineSetter__() \x7b [native code] \x7d"),
   ("hasOwnProperty", "function hasOwnProperty() \x7b [native code] \x7d"),
   ("__lookupGetter__", "function __lookupGetter__() \x7b [native code] \x7d"),
   ("__lookupSetter__", "function __lookupSetter__() \x7b [native code] \x7d"),
   ("isPrototypeOf", "function isPrototypeOf() \x7b [native code] \x7d"),
   ("propertyIsEnumerable", "function propertyIsEnumerable() \x7b [native code] \x7d"),
   ("toString", "function toString() \x7b [native code] \x7d"),
   ("valueOf", "function valueOf() \x7b [native code] \x7d"),
   ("__proto__", "[object Object]"),
   ("toLocaleString", "function toLocaleString() \x7b [native code] \x7d")]

/-- What the read `obj[key]` finds. -/
inductive JSRead where
  | undefined
  | own (v : JSValue)
  | inherited (asString : String)
deriving DecidableEq, Repr

/-- The read `obj[key]`: an own property, else one of `Object.prototype`, else `undefined`. -/
def JSObject.get (o : JSObject) (key : String) : JSRead :=
  match o.lookup key with
  | some v => JSRead.own v
  | none =>
    match objectPrototype.lookup key with
    | some str => JSRead.inherited str
    | none => JSRead.undefined

/-- The expression `(x || 0) + 1`: `undefined`, `0` and the empty string are falsy, a string or
an object makes `+` a concatenation. -/
def orZeroPlusOne : JSRead → JSValue
  | JSRead.undefined => JSValue.number 1
  | JSRead.own (JSValue.number n) => JSValue.number (n + 1)
  | JSRead.own (JSValue.string str) =>
    if str = "" then JSValue.number 1 else JSValue.string (str ++ "1")
  | JSRead.inherited str => JSValue.string (str ++ "1")

/-- Replace the value of the own property `key`, or add it at the end. -/
def JSObject.setOwn (key : String) (v : JSValue) : JSObject → JSObject
  | [] => [(key, v)]
  | (k, w) :: rest => if k = key then (k, v) :: rest else (k, w) :: JSObject.setOwn key v rest

/-- The assignment `obj[key] = v` of a number or string: `__proto__` is the accessor of
`Object.prototype`, whose setter ignores a value that is not an object. -/
def JSObject.set (o : JSObject) (key : String) (v : JSValue) : JSObject :=
  if key = "__proto__" then o else JSObject.setOwn key v o

/-- The statement `table[key] = (table[key] || 0) + 1`. -/
def countUp (table : JSObject) (key : String) : JSObject :=
  table.set key (orZeroPlusOne (table.get key))

/-- The object `stats` of `getStats`. -/
structure FileStats where
  total : Nat
  byType : JSObject
  byUser : JSObject
  byMonth : JSObject
deriving DecidableEq, Repr

/-- Method `getStats`. -/
def getStats (s : Scanner) : FileStats :=
  s.files.foldl
    (fun stats file =>
      { stats with
        byType := countUp stats.byType file.type
        byUser := countUp stats.byUser file.user
        byMonth := countUp stats.byMonth file.yearMonth })
    { total := s.files.length, byType := [], byUser := [], byMonth := [] }

/-- The sum of all values of a frequency table; `none` when a value is not a number. -/
def sumValues : JSObject → Option Nat
  | [] => some 0
  | (_, JSValue.number n) :: rest => (sumValues rest).map (fun m => n + m)
  | (_, JSValue.string _) :: _ => none

/-! ## A concrete platform -/

/-- The loop variables of Node's `path.posix.extname`; `none` is `-1`. -/
structure ExtnameState where
  startDot : Option Nat
  startPart : Nat
  stop : Option Nat
  matchedSlash : Bool
  preDotState : Int
deriving DecidableEq, Repr

/-- The loop `for (let i = path.length - 1; i >= 0; --i)` of `path.posix.extname`, over the
characters paired with their index, last one first. -/
def posixExtnameLoop : List (Nat × Char) → ExtnameState → ExtnameState
  | [], st => st
  | (i, code) :: rest, st =>
    if code = '/' then
      if !st.matchedSlash then { st with startPart := i + 1 }
      else posixExtnameLoop rest st
    else
      let st1 : ExtnameState :=
        if st.stop = none then { st with matchedSlash := false, stop := some (i + 1) } else st
      let st2 : ExtnameState :=
        if code = '.' then
          (if st1.startDot = none then { st1 with startDot := some i }
           else if st1.preDotState ≠ 1 then { st1 with preDotState := 1 }
           else st1)
        else if st1.startDot ≠ none then { st1 with preDotState := -1 }
        else st1
      posixExtnameLoop rest st2

/-- Node's `path.posix.extname`. -/
def posixExtname (path : String) : String :=
  let cs := path.data
  let st := posixExtnameLoop ((List.range cs.length).zip cs).reverse
    { startDot := none, startPart := 0, stop := none, matchedSlash := true, preDotState := 0 }
  match st.startDot, st.stop with
  | some startDot, some stop =>
    if st.preDotState = 0 ∨
        (st.preDotState = 1 ∧ startDot = stop - 1 ∧ startDot = st.startPart + 1) then ""
    else String.mk ((cs.take stop).drop startDot)
  | _, _ => ""

/-- Lower-casing of the letters `A`-`Z`; `toLowerCase` does this to a string of ASCII
characters. -/
def asciiLower (str : String) : String := String.mk (str.data.map Char.toLower)

/-- The decimal digits of `n`, `width` of them, most significant first. -/
def padDigits : Nat → Nat → List Char
  | 0, _ => []
  | width + 1, n => padDigits width (n / 10) ++ [Char.ofNat (48 + n % 10)]

/-- The number of decimal digits of `n` (at least one), with `fuel` at least that number. -/
def digitCount : Nat → Nat → Nat
  | 0, _ => 1
  | fuel + 1, n => if n < 10 then 1 else digitCount fuel (n / 10) + 1

/-- The decimal representation of `n`. -/
def showNat (n : Nat) : String := String.mk (padDigits (digitCount n n) n)

/-- Year, month and day of the day `days` after 1970-01-01 in the proleptic Gregorian
calendar. -/
def civilFromDays (days : Int) : Int × Nat × Nat :=
  let z := days + 719468
  let era := Int.fdiv z 146097
  let doe := (z - era * 146097).toNat
  let yoe := (doe - doe / 1460 + doe / 36524 - doe / 146096) / 365
  let doy := doe - (365 * yoe + yoe / 4 - yoe / 100)
  let mp := (5 * doy + 2) / 153
  let d := doy - (153 * mp + 2) / 5 + 1
  let m := if mp < 10 then mp + 3 else mp - 9
  ((yoe : Int) + era * 400 + (if m ≤ 2 then 1 else 0), m, d)

/-- Method `Date.prototype.toISOString` on a time value in milliseconds: `YYYY-MM-DDTHH:mm:ss.sssZ`,
the year with a sign and six digits outside 0000-9999. -/
def isoString (ms : Int) : String :=
  let days := Int.fdiv ms 86400000
  let rest := (Int.fmod ms 86400000).toNat
  let ymd := civilFromDays days
  let year : List Char :=
    if 0 ≤ ymd.1 ∧ ymd.1 ≤ 9999 then padDigits 4 ymd.1.toNat
    else (if ymd.1 < 0 then '-' else '+') :: padDigits 6 ymd.1.natAbs
  String.mk (year ++ '-' :: padDigits 2 ymd.2.1 ++ '-' :: padDigits 2 ymd.2.2 ++ 'T' ::
    padDigits 2 (rest / 3600000) ++ ':' :: padDigits 2 (rest / 60000 % 60) ++ ':' ::
    padDigits 2 (rest / 1000 % 60) ++ '.' :: padDigits 3 (rest % 1000) ++ ['Z'])

/-- The pieces of a path joined by `/`. -/
def joinChars : List (List Char) → List Char
  | [] => []
  | [piece] => piece
  | piece :: next :: rest => piece ++ '/' :: joinChars (next :: rest)

/-- Node's `path.posix.join` without the final `normalize`: the non-empty arguments joined by
`/`.  The two agree when the first argument is a normalised path that does not end in `/` and
the others are plain names, which is how the fixtures below use it. -/
def posixJoin (parts : List String) : String :=
  String.mk (joinChars ((parts.filter (fun part => part ≠ "")).map String.data))

/-- The pieces of a path between its `/` characters. -/
def splitSlash : List Char → List (List Char)
  | [] => [[]]
  | c :: cs =>
    if c = '/' then [] :: splitSlash cs
    else
      match splitSlash cs with
      | [] => [[c]]
      | piece :: pieces => (c :: piece) :: pieces

/-- The non-empty pieces of a path between its `/` characters. -/
def segmentChars (cs : List Char) : List (List Char) :=
  (splitSlash cs).filter (fun piece => decide (piece ≠ []))

/-- The segments of a POSIX path. -/
def pathSegments (p : String) : List String := (segmentChars p.data).map String.mk

/-- A POSIX host: home directory `/home/u`, `LOCALAPPDATA` unset, ids numbered by position. -/
def posix : Platform :=
  { join := posixJoin
    extname := posixExtname
    toLowerCase := asciiLower
    toISOString := isoString
    homedir := "/home/u"
    localAppData := ""
    newId := fun n => "id" ++ showNat n }

/-! ## Path segments -/

/-- Whether a name is one path segment: not empty, not `.` or `..`, and without a separator. -/
def plainName (name : String) : Bool :=
  decide (name ≠ "") && decide (name ≠ ".") && decide (name ≠ "..") &&
    !name.data.contains '/' && !name.data.contains (Char.ofNat 92)

/-- What the walk needs of `path.join` and of directory listings, for a reading `segs` of a
path as its sequence of segments: joining plain names to a path appends them to its segments,
and a listing holds plain names, each once. -/
structure PathModel (P : Platform) (fs : FileSystem) (segs : String → List String) : Prop where
  join : ∀ a rest, (∀ b ∈ rest, plainName b = true) → segs (P.join (a :: rest)) = segs a ++ rest
  plain : ∀ p items, fs.readdir p = some items → ∀ d ∈ items, plainName d.name = true
  nodup : ∀ p items, fs.readdir p = some items → (items.map Dirent.name).Nodup

/-- The list `fs1` is `fs0` followed by new entries with pairwise different paths, each path
having one of the trails `T` as the beginning of its segments. -/
def Tagged (segs : String → List String) (T : List (List String)) (fs0 fs1 : List Entry) : Prop :=
  ∃ new, fs1 = fs0 ++ new ∧ (new.map Entry.path).Nodup ∧
    ∀ e ∈ new, ∃ t ∈ T, t <+: segs e.path

/-- No resolved root is equal to or inside another one. -/
def UnrelatedRoots (segs : String → List String) (roots : List String) : Prop :=
  roots.Pairwise (fun a b => ¬ segs a <+: segs b ∧ ¬ segs b <+: segs a)

/-- The directory tree is finite: `depth` bounds, below `bound`, the nesting under every
folder, and goes down from a folder to each directory its listing names. -/
structure FiniteTree (P : Platform) (fs : FileSystem) (depth : String → Nat) (bound : Nat) :
    Prop where
  bounded : ∀ p, depth p < bound
  descends : ∀ p items, fs.readdir p = some items → ∀ d ∈ items, d.isDirectory = true →
    depth (P.join [p, d.name]) < depth p

/-! ## Fixtures -/

/-- A file system given by the listing of each directory and the `fs.Stats` of each regular
file; every other path does not exist. -/
def mkFileSystem (dirs : List (String × List Dirent)) (files : List (String × Stats)) :
    FileSystem :=
  { access := fun p => (dirs.lookup p).isSome || (files.lookup p).isSome
    readdir := fun p => dirs.lookup p
    stat := fun p => files.lookup p }

/-- The file system with nothing in it. -/
def emptyFS : FileSystem := mkFileSystem [] []

/-- The listing of a month folder holding `photo.png` and `9999`. -/
def monthListing : List Dirent :=
  [{ name := "photo.png", kind := DirentKind.file }, { name := "9999", kind := DirentKind.file }]

/-- The root `/data` holding `FileStorage/Image/2024-01/photo.png` (2000 bytes) and
`FileStorage/Image/2024-01/9999` (500 bytes) and nothing else. -/
def flatRootFS : FileSystem :=
  mkFileSystem
    [("/data", [{ name := "FileStorage", kind := DirentKind.directory }]),
     ("/data/FileStorage", [{ name := "Image", kind := DirentKind.directory }]),
     ("/data/FileStorage/Image", [{ name := "2024-01", kind := DirentKind.directory }]),
     ("/data/FileStorage/Image/2024-01", monthListing)]
    [("/data/FileStorage/Image/2024-01/photo.png",
        { size := 2000, birthtime := 1704067200000, mtime := 1706700000000 }),
     ("/data/FileStorage/Image/2024-01/9999",
        { size := 500, birthtime := 1704067200000, mtime := 1706700000001 })]

/-- The directories of `profileFS root user` with their listings. -/
def profileDirs (root user : String) : List (String × List Dirent) :=
  [(root, [{ name := user, kind := DirentKind.directory }]),
   (root ++ "/" ++ user, [{ name := "FileStorage", kind := DirentKind.directory }]),
   (root ++ "/" ++ user ++ "/FileStorage", [{ name := "Image", kind := DirentKind.directory }]),
   (root ++ "/" ++ user ++ "/FileStorage/Image",
      [{ name := "2024-01", kind := DirentKind.directory }]),
   (root ++ "/" ++ user ++ "/FileStorage/Image/2024-01", monthListing)]

/-- The root `root` holding one profile folder `user`, and in it
`FileStorage/Image/2024-01/photo.png` (2000 bytes) and `FileStorage/Image/2024-01/9999`
(500 bytes) and nothing else. -/
def profileFS (root user : String) : FileSystem :=
  mkFileSystem (profileDirs root user)
    [(root ++ "/" ++ user ++ "/FileStorage/Image/2024-01/photo.png",
        { size := 2000, birthtime := 1704067200000, mtime := 1706700000000 }),
     (root ++ "/" ++ user ++ "/FileStorage/Image/2024-01/9999",
        { size := 500, birthtime := 1704067200000, mtime := 1706700000001 })]

/-- A nesting depth for the fixtures: a path of `n` segments has `8 - n` levels under it. -/
def fixtureDepth (p : String) : Nat := 8 - (pathSegments p).length

/-- The directories of `twoRootFS` with their listings. -/
def twoRootDirs : List (String × List Dirent) :=
  [("/data",
      [{ name := "wxid_1", kind := DirentKind.directory },
       { name := "notes.txt", kind := DirentKind.file }]),
   ("/data/wxid_1",
      [{ name := "FileStorage", kind := DirentKind.directory },
       { name := "msg", kind := DirentKind.directory }]),
   ("/data/wxid_1/FileStorage",
      [{ name := "Image", kind := DirentKind.directory },
       { name := "MsgAttach", kind := DirentKind.directory }]),
   ("/data/wxid_1/FileStorage/Image", [{ name := "2024-01", kind := DirentKind.directory }]),
   ("/data/wxid_1/FileStorage/Image/2024-01",
      [{ name := "photo.png", kind := DirentKind.file },
       { name := "pic.jpg", kind := DirentKind.file },
       { name := "9999", kind := DirentKind.file }]),
   ("/data/wxid_1/FileStorage/MsgAttach", [{ name := "grp1", kind := DirentKind.directory }]),
   ("/data/wxid_1/FileStorage/MsgAttach/grp1", [{ name := "File", kind := DirentKind.directory }]),
   ("/data/wxid_1/FileStorage/MsgAttach/grp1/File",
      [{ name := "2024-02", kind := DirentKind.directory }]),
   ("/data/wxid_1/FileStorage/MsgAttach/grp1/File/2024-02",
      [{ name := "report.pdf", kind := DirentKind.file }]),
   ("/data/wxid_1/msg", [{ name := "attach", kind := DirentKind.directory }]),
   ("/data/wxid_1/msg/attach",
      [{ name := "sub", kind := DirentKind.directory },
       { name := "note.md", kind := DirentKind.file }]),
   ("/data/wxid_1/msg/attach/sub", [{ name := "doc.txt", kind := DirentKind.file }]),
   ("/home/u/Documents/WeChat Files", [{ name := "wxid_2", kind := DirentKind.directory }]),
   ("/home/u/Documents/WeChat Files/wxid_2",
      [{ name := "FileStorage", kind := DirentKind.directory }]),
   ("/home/u/Documents/WeChat Files/wxid_2/FileStorage",
      [{ name := "Video", kind := DirentKind.directory }]),
   ("/home/u/Documents/WeChat Files/wxid_2/FileStorage/Video",
      [{ name := "2024-03", kind := DirentKind.directory }]),
   ("/home/u/Documents/WeChat Files/wxid_2/FileStorage/Video/2024-03",
      [{ name := "clip.mp4", kind := DirentKind.file }])]

/-- The regular files of `twoRootFS` with their `fs.Stats`. -/
def twoRootFiles : List (String × Stats) :=
  [("/data/notes.txt", { size := 4000, birthtime := 1704067200000, mtime := 1704067200000 }),
   ("/data/wxid_1/FileStorage/Image/2024-01/photo.png",
      { size := 2000, birthtime := 1704067200000, mtime := 1706700000000 }),
   ("/data/wxid_1/FileStorage/Image/2024-01/pic.jpg",
      { size := 3000, birthtime := 1704067200000, mtime := 1706700000002 }),
   ("/data/wxid_1/FileStorage/Image/2024-01/9999",
      { size := 500, birthtime := 1704067200000, mtime := 1706700000001 }),
   ("/data/wxid_1/FileStorage/MsgAttach/grp1/File/2024-02/report.pdf",
      { size := 5000, birthtime := 1707000000000, mtime := 1709210096789 }),
   ("/data/wxid_1/msg/attach/note.md",
      { size := 2048, birthtime := 1707000000000, mtime := 1709210096789 }),
   ("/data/wxid_1/msg/attach/sub/doc.txt",
      { size := 4000, birthtime := 1707000000000, mtime := 1711929600000 }),
   ("/home/u/Documents/WeChat Files/wxid_2/FileStorage/Video/2024-03/clip.mp4",
      { size := 9000, birthtime := 1709251200000, mtime := 1709251200000 })]

/-- Two roots, the custom path `/data` and the default location `~/Documents/WeChat Files`.
The profile `wxid_1` under `/data` has two accepted pictures and the rejected `9999` in
`FileStorage/Image/2024-01`, a document under `FileStorage/MsgAttach/grp1/File/2024-02`, and
two nested documents under `msg/attach`; the profile `wxid_2` under the default location has
one video in `FileStorage/Video/2024-03`. -/
def twoRootFS : FileSystem := mkFileSystem twoRootDirs twoRootFiles

/-- The scanner after `new FileScanner("/data", false)` walked an empty root `/data` and
stored the snapshot at time 1000. -/
def cachedScanner : Scanner :=
  { customPath := "/data"
    useDefaultPaths := false
    wechatPaths := ["/data"]
    files := []
    cache := some []
    cacheTime := 1000
    cacheExpiry := 300000 }

/-- A scanner whose snapshot holds two entries with different times. -/
def twoFilesScanner : Scanner :=
  { customPath := ""
    useDefaultPaths := true
    wechatPaths := []
    files :=
      [{ id := "a", name := "a.png", path := "/a.png", size := 2000, type := "image",
         createTime := 0, modifyTime := 5, user := "u", yearMonth := "2024-01" },
       { id := "b", name := "b.png", path := "/b.png", size := 2000, type := "image",
         createTime := 0, modifyTime := 3, user := "u", yearMonth := "2024-01" }]
    cache := none
    cacheTime := 0
    cacheExpiry := 300000 }

end WXFiles

/-! # Theorems -/

namespace WXFiles

/-! ## Type classifier -/

/-- Whatever the fallback, a name whose lower-cased extension is in none of the five sets is
classified `other`. -/
theorem getFileType_unknown (P : Platform) (fileName d : String)
    (h1 : P.toLowerCase (P.extname fileName) ∉ [".jpg", ".jpeg", ".png", ".gif", ".bmp", ".webp"])
    (h2 : P.toLowerCase (P.extname fileName) ∉ [".mp4", ".avi", ".mov", ".wmv", ".flv", ".mkv"])
    (h3 : P.toLowerCase (P.extname fileName) ∉ [".mp3", ".wav", ".aac", ".flac", ".ogg", ".amr"])
    (h4 : P.toLowerCase (P.extname fileName) ∉
      [".doc", ".docx", ".xls", ".xlsx", ".ppt", ".pptx", ".pdf", ".txt", ".md"])
    (h5 : P.toLowerCase (P.extname fileName) ∉ [".zip", ".rar", ".7z", ".tar", ".gz", ".bz2"]) :
    getFileType P fileName d = "other" := by
  unfold getFileType
  simp only [if_neg h1, if_neg h2, if_neg h3, if_neg h4, if_neg h5]

/-- C1, at the input of the spec: `getFileType("a.xyz", "file")` is `other`, not the fallback
`file`; the extension `.xyz` is in none of the five sets. -/
theorem C1_getFileType_unknown_extension_gives_other :
    posix.toLowerCase (posix.extname "a.xyz") = ".xyz" ∧
      getFileType posix "a.xyz" "file" = "other" ∧
      getFileType posix "a.xyz" "file" ≠ "file" := by
  decide

/-- The result of `getFileType` depends on the name only through its lower-cased extension,
and not on the fallback. -/
theorem getFileType_congr (P : Platform) (fileName fileName2 d d2 : String)
    (h : P.toLowerCase (P.extname fileName) = P.toLowerCase (P.extname fileName2)) :
    getFileType P fileName d = getFileType P fileName2 d2 := by
  unfold getFileType
  simp only [h]

/-- C11: a file name whose lower-cased extension is in one of the five sets gets the category
of that set, whatever the fallback; two names with the same lower-cased extension get the same
category; and `getFileType("a.JPG", "other")` is `image`. -/
theorem C11_getFileType_known_extension (P : Platform) (fileName d : String) :
    (P.toLowerCase (P.extname fileName) ∈ [".jpg", ".jpeg", ".png", ".gif", ".bmp", ".webp"] →
      getFileType P fileName d = "image") ∧
    (P.toLowerCase (P.extname fileName) ∈ [".mp4", ".avi", ".mov", ".wmv", ".flv", ".mkv"] →
      getFileType P fileName d = "video") ∧
    (P.toLowerCase (P.extname fileName) ∈ [".mp3", ".wav", ".aac", ".flac", ".ogg", ".amr"] →
      getFileType P fileName d = "audio") ∧
    (P.toLowerCase (P.extname fileName) ∈
        [".doc", ".docx", ".xls", ".xlsx", ".ppt", ".pptx", ".pdf", ".txt", ".md"] →
      getFileType P fileName d = "file") ∧
    (P.toLowerCase (P.extname fileName) ∈ [".zip", ".rar", ".7z", ".tar", ".gz", ".bz2"] →
      getFileType P fileName d = "archive") ∧
    (∀ d2, getFileType P fileName d = getFileType P fileName d2) ∧
    (∀ fileName2 d2, P.toLowerCase (P.extname fileName) = P.toLowerCase (P.extname fileName2) →
      getFileType P fileName d = getFileType P fileName2 d2) ∧
    posix.toLowerCase (posix.extname "a.JPG") = ".jpg" ∧
    getFileType posix "a.JPG" "other" = "image" ∧
    getFileType posix "a.jpg" "other" = "image" ∧
    getFileType posix "a.JPG" "file" = "image" := by
  refine ⟨?_, ?_, ?_, ?_, ?_, fun d2 => getFileType_congr P _ _ _ _ rfl,
    fun f2 d2 h => getFileType_congr P _ _ _ _ h, by decide, by decide, by decide, by decide⟩
  · intro h
    simp only [getFileType, if_pos h]
  all_goals
    intro h
    simp only [List.mem_cons, List.mem_singleton, List.not_mem_nil, or_false] at h
    first
      | (rcases h with h | h | h | h | h | h | h | h | h <;> simp [getFileType, h])
      | (rcases h with h | h | h | h | h | h <;> simp [getFileType, h])

/-! ## Inclusion filter -/

/-- The matcher accepts, after a digit (`b = true`) or at the start (`b = false`), exactly a
run of digits, non-empty at the start, followed by groups of `_` and digits. -/
theorem numericNameGo_iff : ∀ (cs : List Char) (b : Bool),
    numericNameGo b cs = true ↔
      ∃ d gs, (b = false → d ≠ []) ∧ (∀ c ∈ d, c.isDigit = true) ∧
        (∀ g ∈ gs, g ≠ [] ∧ ∀ c ∈ g, c.isDigit = true) ∧ cs = d ++ underscoreGroups gs := by
  have hunder : ('_' : Char).isDigit = false := by decide
  intro cs
  induction cs with
  | nil =>
    intro b
    simp only [numericNameGo]
    constructor
    · intro hb
      exact ⟨[], [], by simp [hb], by simp, by simp, rfl⟩
    · rintro ⟨d, gs, h1, _, _, h4⟩
      have hd : d = [] := by
        cases d with
        | nil => rfl
        | cons _ _ => simp at h4
      cases b
      · exact absurd hd (h1 rfl)
      · rfl
  | cons c cs ih =>
    intro b
    rw [numericNameGo]
    by_cases hc : c.isDigit = true
    · simp only [hc, if_true]
      rw [ih true]
      constructor
      · rintro ⟨d, gs, _, h2, h3, h4⟩
        refine ⟨c :: d, gs, by simp, ?_, h3, by rw [h4]; rfl⟩
        intro x hx
        rcases List.mem_cons.mp hx with rfl | hx
        · exact hc
        · exact h2 x hx
      · rintro ⟨d, gs, _, h2, h3, h4⟩
        cases d with
        | nil =>
          cases gs with
          | nil => simp [underscoreGroups] at h4
          | cons g gs =>
            simp only [underscoreGroups, List.nil_append, List.cons.injEq] at h4
            rw [h4.1, hunder] at hc
            cases hc
        | cons x d =>
          simp only [List.cons_append, List.cons.injEq] at h4
          exact ⟨d, gs, by simp, fun y hy => h2 y (List.mem_cons_of_mem _ hy), h3, h4.2⟩
    · simp only [hc, Bool.false_eq_true, if_false]
      by_cases hu : c = '_' ∧ b = true
      · obtain ⟨rfl, rfl⟩ := hu
        simp only [decide_True, Bool.and_self, if_true]
        rw [ih false]
        constructor
        · rintro ⟨d, gs, h1, h2, h3, h4⟩
          refine ⟨[], d :: gs, by simp, by simp, ?_, by rw [h4]; rfl⟩
          intro g hg
          rcases List.mem_cons.mp hg with rfl | hg
          · exact ⟨h1 rfl, h2⟩
          · exact h3 g hg
        · rintro ⟨d, gs, _, h2, h3, h4⟩
          cases d with
          | cons x d =>
            simp only [List.cons_append, List.cons.injEq] at h4
            have hx := h2 x (List.mem_cons_self _ _)
            rw [← h4.1, hunder] at hx
            cases hx
          | nil =>
            cases gs with
            | nil => simp [underscoreGroups] at h4
            | cons g gs =>
              simp only [underscoreGroups, List.nil_append, List.cons.injEq, true_and] at h4
              exact ⟨g, gs, fun _ => (h3 g (List.mem_cons_self _ _)).1,
                (h3 g (List.mem_cons_self _ _)).2,
                fun x hx => h3 x (List.mem_cons_of_mem _ hx), h4⟩
      · have hcond : (decide (c = '_') && b) = false := by
          cases b
          · simp
          · simpa using hu
        simp only [hcond, Bool.false_eq_true, if_false]
        constructor
        · intro h
          cases h
        · rintro ⟨d, gs, h1, h2, h3, h4⟩
          exfalso
          cases d with
          | cons x d =>
            simp only [List.cons_append, List.cons.injEq] at h4
            exact hc (h4.1 ▸ h2 x (List.mem_cons_self _ _))
          | nil =>
            cases gs with
            | nil => simp [underscoreGroups] at h4
            | cons g gs =>
              simp only [underscoreGroups, List.nil_append, List.cons.injEq] at h4
              cases b
              · exact h1 rfl rfl
              · exact hu ⟨h4.1, rfl⟩

/-- The test `/^\d+(_\d+)*$/.test(fileName)` holds exactly for the names in the language of
the pattern. -/
theorem numericName_iff (fileName : String) :
    numericName fileName = true ↔ NumericPattern fileName.data := by
  unfold numericName NumericPattern
  rw [numericNameGo_iff]
  constructor
  · rintro ⟨d, gs, h1, h2, h3, h4⟩
    exact ⟨d, gs, h1 rfl, h2, h3, h4⟩
  · rintro ⟨d, gs, h1, h2, h3, h4⟩
    exact ⟨d, gs, fun _ => h1, h2, h3, h4⟩

/-- The boolean of `shouldIncludeFile` in terms of its four tests, the pattern test being the
matcher `numericName`. -/
theorem shouldIncludeFile_matcher (P : Platform) (fs : FileSystem) (fileName filePath : String) :
    ((shouldIncludeFile P fs fileName filePath).1 = true ↔
      (P.toLowerCase (P.extname fileName) ∉ [".dat", ".ini", ".log", ".tmp", ".temp", ".db"] ∧
        fileName ∉ ["Thumbs.db", "desktop.ini", "config"] ∧
        numericName fileName = false ∧
        ∃ stats, fs.stat filePath = some stats ∧ 1024 ≤ stats.size)) ∧
    (∀ stats, fs.stat filePath = some stats → stats.size < 1024 →
      (shouldIncludeFile P fs fileName filePath).1 = false) ∧
    (numericName fileName = true → (shouldIncludeFile P fs fileName filePath).1 = false) ∧
    (fs.stat filePath = none → (shouldIncludeFile P fs fileName filePath).1 = false) := by
  have key : (shouldIncludeFile P fs fileName filePath).1 = true ↔
      (P.toLowerCase (P.extname fileName) ∉ [".dat", ".ini", ".log", ".tmp", ".temp", ".db"] ∧
        fileName ∉ ["Thumbs.db", "desktop.ini", "config"] ∧
        numericName fileName = false ∧
        ∃ stats, fs.stat filePath = some stats ∧ 1024 ≤ stats.size) := by
    unfold shouldIncludeFile excludedExtensions excludedNames minFileSize
    by_cases h1 : P.toLowerCase (P.extname fileName) ∈
        [".dat", ".ini", ".log", ".tmp", ".temp", ".db"]
    · simp [h1]
    by_cases h2 : fileName ∈ ["Thumbs.db", "desktop.ini", "config"]
    · simp only [if_neg h1, if_pos h2]
      simp [h2]
    cases h3 : numericName fileName
    · simp only [if_neg h1, if_neg h2]
      cases h4 : fs.stat filePath with
      | none => simp
      | some stats =>
        by_cases h5 : stats.size < 1024
        · simp [h5, h1, h2]
        · simp only [if_neg h5]
          simp only [not_lt] at h5
          simp [h1, h2, h5]
    · simp [h1, h2]
  refine ⟨key, ?_, ?_, ?_⟩
  · intro stats hs hlt
    cases hb : (shouldIncludeFile P fs fileName filePath).1
    · rfl
    · obtain ⟨_, _, _, st, hst, hge⟩ := key.mp hb
      rw [hs] at hst
      cases hst
      omega
  · intro hn
    cases hb : (shouldIncludeFile P fs fileName filePath).1
    · rfl
    · obtain ⟨_, _, hf, _⟩ := key.mp hb
      rw [hn] at hf
      cases hf
  · intro hn
    cases hb : (shouldIncludeFile P fs fileName filePath).1
    · rfl
    · obtain ⟨_, _, _, st, hst, _⟩ := key.mp hb
      rw [hn] at hst
      cases hst

/-- C2: `shouldIncludeFile` resolves to true exactly when the lower-cased extension is not
excluded, the name is not an excluded name, the name is not in the language of
`^\d+(_\d+)*$`, and the size lookup succeeds with at least 1024 bytes; so it is false for a
file under 1024 bytes, for a digits-and-underscores name, and when the lookup fails. -/
theorem C2_shouldIncludeFile_iff (P : Platform) (fs : FileSystem) (fileName filePath : String) :
    ((shouldIncludeFile P fs fileName filePath).1 = true ↔
      (P.toLowerCase (P.extname fileName) ∉ [".dat", ".ini", ".log", ".tmp", ".temp", ".db"] ∧
        fileName ∉ ["Thumbs.db", "desktop.ini", "config"] ∧
        ¬ NumericPattern fileName.data ∧
        ∃ stats, fs.stat filePath = some stats ∧ 1024 ≤ stats.size)) ∧
    (∀ stats, fs.stat filePath = some stats → stats.size < 1024 →
      (shouldIncludeFile P fs fileName filePath).1 = false) ∧
    (NumericPattern fileName.data → (shouldIncludeFile P fs fileName filePath).1 = false) ∧
    (fs.stat filePath = none → (shouldIncludeFile P fs fileName filePath).1 = false) := by
  obtain ⟨h1, h2, h3, h4⟩ := shouldIncludeFile_matcher P fs fileName filePath
  have hpat : numericName fileName = false ↔ ¬ NumericPattern fileName.data := by
    rw [← numericName_iff]
    simp
  refine ⟨?_, h2, fun hp => h3 ((numericName_iff fileName).mpr hp), h4⟩
  rw [h1, hpat]

/-! ## Catalog: queries -/

/-- The matcher `includesChars` decides whether the needle is a contiguous part of the
haystack. -/
theorem includesChars_iff (needle hay : List Char) :
    includesChars needle hay = true ↔ needle <:+: hay := by
  induction hay with
  | nil =>
    cases needle <;> simp [includesChars]
  | cons c cs ih =>
    simp only [includesChars, Bool.or_eq_true, ih, List.isPrefixOf_iff_prefix,
      List.infix_cons_iff]

/-- C9: `filterByType("all")` is the snapshot itself, and for any other type the result is the
snapshot filtered, in order, to the entries whose `type` equals it. -/
theorem C9_filterByType (s : Scanner) :
    filterByType s "all" = s.files ∧
    ∀ t, t ≠ "all" →
      filterByType s t = s.files.filter (fun e => decide (e.type = t)) ∧
      (filterByType s t).Sublist s.files ∧
      ∀ e, e ∈ filterByType s t ↔ e ∈ s.files ∧ e.type = t := by
  refine ⟨by simp [filterByType], ?_⟩
  intro t ht
  have h : filterByType s t = s.files.filter (fun e => decide (e.type = t)) := by
    simp [filterByType, ht]
  refine ⟨h, ?_, ?_⟩
  · rw [h]
    exact List.filter_sublist _
  · intro e
    rw [h]
    simp [List.mem_filter]

/-- C10: an absent or empty keyword gives the snapshot itself; any other keyword gives the
snapshot filtered, in order, to the entries whose lower-cased name has the lower-cased keyword
as a contiguous part, so two keywords with the same lower-cased form give the same result. -/
theorem C10_searchFiles (P : Platform) (s : Scanner) :
    searchFiles P s none = s.files ∧
    searchFiles P s (some "") = s.files ∧
    (∀ k, k ≠ "" →
      searchFiles P s (some k) = s.files.filter
        (fun e => decide ((P.toLowerCase k).data <:+: (P.toLowerCase e.name).data))) ∧
    (∀ k k2, k ≠ "" → k2 ≠ "" → P.toLowerCase k = P.toLowerCase k2 →
      searchFiles P s (some k) = searchFiles P s (some k2)) := by
  refine ⟨rfl, by simp [searchFiles], ?_, ?_⟩
  · intro k hk
    simp only [searchFiles, if_neg hk]
    apply List.filter_congr
    intro e _
    simp only [includes]
    cases h : includesChars (P.toLowerCase k).data (P.toLowerCase e.name).data
    · have := (includesChars_iff (P.toLowerCase k).data (P.toLowerCase e.name).data).not.mp
        (by simp [h])
      simp [this]
    · have := (includesChars_iff (P.toLowerCase k).data (P.toLowerCase e.name).data).mp h
      simp [this]
  · intro k k2 hk hk2 hlow
    simp only [searchFiles, if_neg hk, if_neg hk2, hlow]

/-! ## Catalog: cache -/

/-! The walk only adds to the probe log. -/

theorem probes_probe (st : ScanState) (p : Probe) : st.probes <+: (st.probe p).probes :=
  List.prefix_append _ _

theorem probes_push (st : ScanState) (e : Entry) : (st.push e).probes = st.probes := rfl

theorem prefix_append_append (a b c : List Probe) : a <+: (a ++ b) ++ c :=
  (List.prefix_append a b).trans (List.prefix_append _ c)

theorem scanMonthFiles_probes (P : Platform) (fs : FileSystem) (m type user ym : String) :
    ∀ (names : List String) (st : ScanState),
      st.probes <+: (scanMonthFiles P fs m type user ym names st).probes := by
  intro names
  induction names with
  | nil => intro st; exact List.prefix_refl _
  | cons f rest ih =>
    intro st
    unfold scanMonthFiles
    simp only
    split_ifs
    · split
      · exact prefix_append_append _ _ _
      · refine List.IsPrefix.trans ?_ (ih _)
        exact prefix_append_append _ _ _
    · refine List.IsPrefix.trans ?_ (ih _)
      exact List.prefix_append _ _

theorem scanMonthFolder_probes (P : Platform) (fs : FileSystem) (m type user ym : String)
    (st : ScanState) : st.probes <+: (scanMonthFolder P fs m type user ym st).probes := by
  unfold scanMonthFolder
  split
  · exact probes_probe _ _
  · exact (probes_probe _ _).trans (scanMonthFiles_probes P fs m type user ym _ _)

theorem scanCategoryMonths_probes (P : Platform) (fs : FileSystem) (c type user : String) :
    ∀ (names : List String) (st : ScanState),
      st.probes <+: (scanCategoryMonths P fs c type user names st).probes := by
  intro names
  induction names with
  | nil => intro st; exact List.prefix_refl _
  | cons ym rest ih =>
    intro st
    unfold scanCategoryMonths
    exact (scanMonthFolder_probes P fs _ type user ym st).trans (ih _)

theorem scanCategoryFolder_probes (P : Platform) (fs : FileSystem) (c type user : String)
    (st : ScanState) : st.probes <+: (scanCategoryFolder P fs c type user st).probes := by
  unfold scanCategoryFolder
  split
  · exact probes_probe _ _
  · exact (probes_probe _ _).trans (scanCategoryMonths_probes P fs c type user _ _)

theorem scanCategories_probes (P : Platform) (fs : FileSystem) (base user : String) :
    ∀ (names : List String) (st : ScanState),
      st.probes <+: (scanCategories P fs base user names st).probes := by
  intro names
  induction names with
  | nil => intro st; exact List.prefix_refl _
  | cons cat rest ih =>
    intro st
    unfold scanCategories
    simp only
    refine List.IsPrefix.trans ?_ (ih _)
    split_ifs
    · exact (probes_probe _ _).trans (scanCategoryFolder_probes P fs _ _ user _)
    · exact probes_probe _ _

theorem scanMsgAttach_probes (P : Platform) (fs : FileSystem) (a user : String)
    (st : ScanState) : st.probes <+: (scanMsgAttach P fs a user st).probes := by
  have subs : ∀ (names : List String) (st : ScanState),
      st.probes <+: (scanMsgAttachSubs P fs a user names st).probes := by
    intro names
    induction names with
    | nil => intro st; exact List.prefix_refl _
    | cons sub rest ih =>
      intro st
      unfold scanMsgAttachSubs
      exact (scanCategories_probes P fs _ user _ st).trans (ih _)
  unfold scanMsgAttach
  split
  · exact probes_probe _ _
  · exact (probes_probe _ _).trans (subs _ _)

theorem recursiveScanItems_probes (P : Platform) (fs : FileSystem)
    (recur : String → ScanState → Option ScanState)
    (hrec : ∀ p st st2, recur p st = some st2 → st.probes <+: st2.probes)
    (folder user : String) :
    ∀ (items : List Dirent) (st st2 : ScanState),
      recursiveScanItems P fs recur folder user items st = some st2 →
      st.probes <+: st2.probes := by
  intro items
  induction items with
  | nil =>
    intro st st2 h
    simp only [recursiveScanItems, Option.some.injEq] at h
    subst h
    exact List.prefix_refl _
  | cons item rest ih =>
    intro st st2 h
    unfold recursiveScanItems at h
    simp only at h
    split_ifs at h
    · split at h
      · cases h
      · rename_i st1 hr
        exact (hrec _ _ _ hr).trans (ih _ _ h)
    · split at h
      · simp only [Option.some.injEq] at h
        subst h
        exact prefix_append_append _ _ _
      · refine List.IsPrefix.trans ?_ (ih _ _ h)
        exact prefix_append_append _ _ _
    · refine List.IsPrefix.trans ?_ (ih _ _ h)
      exact List.prefix_append _ _
    · exact ih _ _ h

theorem recursiveScan_probes (P : Platform) (fs : FileSystem) (user : String) :
    ∀ (fuel : Nat) (folder : String) (st st2 : ScanState),
      recursiveScan P fs fuel folder user st = some st2 → st.probes <+: st2.probes := by
  intro fuel
  induction fuel with
  | zero => intro folder st st2 h; simp [recursiveScan] at h
  | succ fuel ih =>
    intro folder st st2 h
    unfold recursiveScan at h
    split at h
    · simp only [Option.some.injEq] at h
      subst h
      exact probes_probe _ _
    · exact (probes_probe _ _).trans
        (recursiveScanItems_probes P fs _ (fun p a b hp => ih p a b hp) folder user _ _ _ h)

theorem scanMsgFolder_probes (P : Platform) (fs : FileSystem) (fuel : Nat) (m user : String)
    (st st2 : ScanState) (h : scanMsgFolder P fs fuel m user st = some st2) :
    st.probes <+: st2.probes := by
  have subs : ∀ (names : List String) (st st2 : ScanState),
      scanMsgSubs P fs fuel m user names st = some st2 → st.probes <+: st2.probes := by
    intro names
    induction names with
    | nil =>
      intro st st2 h
      simp only [scanMsgSubs, Option.some.injEq] at h
      subst h
      exact List.prefix_refl _
    | cons sub rest ih =>
      intro st st2 h
      unfold scanMsgSubs at h
      simp only at h
      split at h
      · cases h
      · rename_i st1 hr
        exact (recursiveScan_probes P fs user fuel _ _ _ hr).trans (ih _ _ h)
  unfold scanMsgFolder at h
  split at h
  · simp only [Option.some.injEq] at h
    subst h
    exact probes_probe _ _
  · exact (probes_probe _ _).trans (subs _ _ _ h)

theorem scanUser_probes (P : Platform) (fs : FileSystem) (fuel : Nat) (root user : String)
    (st st2 : ScanState) (h : scanUser P fs fuel root user st = some st2) :
    st.probes <+: st2.probes := by
  unfold scanUser at h
  simp only at h
  have h1 : st.probes <+:
      (if fs.access (P.join [P.join [root, user], "FileStorage"]) = true then
        scanFileStorage P fs (P.join [P.join [root, user], "FileStorage"]) user
          (st.probe (Probe.access (P.join [P.join [root, user], "FileStorage"])))
      else st.probe (Probe.access (P.join [P.join [root, user], "FileStorage"]))).probes := by
    split_ifs
    · exact (probes_probe _ _).trans (scanCategories_probes P fs _ user _ _)
    · exact probes_probe _ _
  generalize (if fs.access (P.join [P.join [root, user], "FileStorage"]) = true then
        scanFileStorage P fs (P.join [P.join [root, user], "FileStorage"]) user
          (st.probe (Probe.access (P.join [P.join [root, user], "FileStorage"])))
      else st.probe (Probe.access (P.join [P.join [root, user], "FileStorage"]))) = stA
    at h h1
  split at h
  · cases h
  · rename_i st4 hm
    simp only [Option.some.injEq] at h
    subst h
    have h2 : stA.probes <+: st4.probes := by
      split_ifs at hm
      · refine List.IsPrefix.trans ?_ (scanMsgFolder_probes P fs fuel _ user _ _ hm)
        exact probes_probe _ _
      · simp only [Option.some.injEq] at hm
        subst hm
        exact probes_probe _ _
    refine (h1.trans h2).trans ?_
    split_ifs
    · exact (probes_probe _ _).trans (scanMsgAttach_probes P fs _ user _)
    · exact probes_probe _ _

theorem scanRoots_probes (P : Platform) (fs : FileSystem) (fuel : Nat) :
    ∀ (roots : List String) (st st2 : ScanState),
      scanRoots P fs fuel roots st = some st2 → st.probes <+: st2.probes := by
  have users : ∀ (root : String) (names : List String) (st st2 : ScanState),
      scanUsers P fs fuel root names st = some st2 → st.probes <+: st2.probes := by
    intro root names
    induction names with
    | nil =>
      intro st st2 h
      simp only [scanUsers, Option.some.injEq] at h
      subst h
      exact List.prefix_refl _
    | cons user rest ih =>
      intro st st2 h
      unfold scanUsers at h
      split at h
      · cases h
      · rename_i st1 hr
        exact (scanUser_probes P fs fuel root user _ _ hr).trans (ih _ _ h)
  intro roots
  induction roots with
  | nil =>
    intro st st2 h
    simp only [scanRoots, Option.some.injEq] at h
    subst h
    exact List.prefix_refl _
  | cons root rest ih =>
    intro st st2 h
    unfold scanRoots at h
    split at h
    · cases h
    · rename_i st1 hr
      refine List.IsPrefix.trans ?_ (ih _ _ h)
      unfold scanRoot at hr
      simp only at hr
      split_ifs at hr
      · split at hr
        · simp only [Option.some.injEq] at hr
          subst hr
          exact (probes_probe _ _).trans (probes_probe _ _)
        · exact ((probes_probe _ _).trans (probes_probe _ _)).trans (users _ _ _ _ hr)
      · simp only [Option.some.injEq] at hr
        subst hr
        exact probes_probe _ _

/-- The `fs` calls of an uncached pass begin with those of `getWeChatPaths`. -/
theorem scanWeChatFilesUncached_probes (P : Platform) (fs : FileSystem) (fuel : Nat)
    (nowEnd : Int) (s : Scanner) (r : List Entry) (s1 : Scanner) (log : List Probe)
    (h : scanWeChatFilesUncached P fs fuel nowEnd s = some (r, s1, log)) :
    (getWeChatPaths P fs s).2 <+: log := by
  unfold scanWeChatFilesUncached at h
  simp only at h
  split_ifs at h
  · simp only [Option.some.injEq, Prod.mk.injEq] at h
    rw [← h.2.2]
  · split at h
    · cases h
    · rename_i st hr
      simp only [Option.some.injEq, Prod.mk.injEq] at h
      rw [← h.2.2]
      exact scanRoots_probes P fs fuel _ _ _ hr

/-- With a non-empty custom path, `getWeChatPaths` first calls `fs.access` on it. -/
theorem getWeChatPaths_probes_custom (P : Platform) (fs : FileSystem) (s : Scanner)
    (h : s.customPath ≠ "") :
    [Probe.access s.customPath] <+: (getWeChatPaths P fs s).2 := by
  have hp : ∀ (p : String) (acc : List String × List Probe),
      (probeRoot fs p acc).2 = acc.2 ++ [Probe.access p] := fun _ _ => rfl
  unfold getWeChatPaths
  simp only [h, ne_eq, not_false_eq_true, if_true]
  split_ifs
  · rw [hp, hp, hp, hp, List.nil_append, List.append_assoc, List.append_assoc]
    exact List.prefix_append _ _
  · rw [hp, List.nil_append]

/-- C4: after `setCustomPath` or `setUseDefaultPaths` the cache is invalid at every clock
reading, and the next `scanWeChatFiles` runs the uncached part: it resolves the roots again
(its `fs` calls begin with those of `getWeChatPaths`, the first one an access to a non-empty
custom path) and walks them, giving the entries and `fs` calls a new scanner with these
settings gives. -/
theorem C4_setters_invalidate_cache (P : Platform) (fs : FileSystem) (s : Scanner)
    (p : String) (b : Bool) (fuel : Nat) (now nowEnd : Int) :
    isCacheValid (setCustomPath s p) now = false ∧
    isCacheValid (setUseDefaultPaths s b) now = false ∧
    scanWeChatFiles P fs fuel now nowEnd (setCustomPath s p) =
      scanWeChatFilesUncached P fs fuel nowEnd (setCustomPath s p) ∧
    scanWeChatFiles P fs fuel now nowEnd (setUseDefaultPaths s b) =
      scanWeChatFilesUncached P fs fuel nowEnd (setUseDefaultPaths s b) ∧
    (scanWeChatFiles P fs fuel now nowEnd (setCustomPath s p)).map (fun r => (r.1, r.2.2)) =
      (scanWeChatFilesUncached P fs fuel nowEnd (Scanner.new p s.useDefaultPaths)).map
        (fun r => (r.1, r.2.2)) ∧
    (scanWeChatFiles P fs fuel now nowEnd (setUseDefaultPaths s b)).map (fun r => (r.1, r.2.2)) =
      (scanWeChatFilesUncached P fs fuel nowEnd (Scanner.new s.customPath b)).map
        (fun r => (r.1, r.2.2)) ∧
    (∀ r, scanWeChatFiles P fs fuel now nowEnd (setCustomPath s p) = some r →
      (getWeChatPaths P fs (setCustomPath s p)).2 <+: r.2.2 ∧
      (p ≠ "" → [Probe.access p] <+: r.2.2)) ∧
    (∀ r, scanWeChatFiles P fs fuel now nowEnd (setUseDefaultPaths s b) = some r →
      (getWeChatPaths P fs (setUseDefaultPaths s b)).2 <+: r.2.2) := by
  have h1 : isCacheValid (setCustomPath s p) now = false := by
    simp [isCacheValid, setCustomPath, clearCache]
  have h2 : isCacheValid (setUseDefaultPaths s b) now = false := by
    simp [isCacheValid, setUseDefaultPaths, clearCache]
  have h3 : scanWeChatFiles P fs fuel now nowEnd (setCustomPath s p) =
      scanWeChatFilesUncached P fs fuel nowEnd (setCustomPath s p) := by
    simp [scanWeChatFiles, h1]
  have h4 : scanWeChatFiles P fs fuel now nowEnd (setUseDefaultPaths s b) =
      scanWeChatFilesUncached P fs fuel nowEnd (setUseDefaultPaths s b) := by
    simp [scanWeChatFiles, h2]
  refine ⟨h1, h2, h3, h4, ?_, ?_, ?_, ?_⟩
  · rw [h3]
    simp only [scanWeChatFilesUncached, getWeChatPaths, setCustomPath, clearCache, Scanner.new]
    split_ifs <;> first | rfl | (split <;> rfl)
  · rw [h4]
    simp only [scanWeChatFilesUncached, getWeChatPaths, setUseDefaultPaths, clearCache,
      Scanner.new]
    split_ifs <;> first | rfl | (split <;> rfl)
  · intro r hr
    rw [h3] at hr
    obtain ⟨entries, s1, log⟩ := r
    have hlog := scanWeChatFilesUncached_probes P fs fuel nowEnd _ entries s1 log hr
    refine ⟨hlog, fun hp => ?_⟩
    exact (getWeChatPaths_probes_custom P fs (setCustomPath s p) hp).trans hlog
  · intro r hr
    rw [h4] at hr
    obtain ⟨entries, s1, log⟩ := r
    exact scanWeChatFilesUncached_probes P fs fuel nowEnd _ entries s1 log hr

/-! ## Catalog: sorting -/

/-- Inserting keeps the elements. -/
theorem stableInsert_perm (cmp : Entry → Entry → Int) (a : Entry) (l : List Entry) :
    (stableInsert cmp a l).Perm (a :: l) := by
  induction l with
  | nil => exact List.Perm.refl _
  | cons b l ih =>
    unfold stableInsert
    split_ifs
    · exact List.Perm.refl _
    · exact ((List.Perm.cons b ih).trans (List.Perm.swap a b l))

/-- Sorting keeps the elements. -/
theorem stableSort_perm (cmp : Entry → Entry → Int) (l : List Entry) :
    (stableSort cmp l).Perm l := by
  induction l with
  | nil => exact List.Perm.refl _
  | cons a l ih =>
    unfold stableSort
    exact (stableInsert_perm cmp a _).trans (List.Perm.cons a ih)

/-- Inserting into a list ordered by the comparator of `sortByTime` keeps it ordered. -/
theorem stableInsert_sorted (asc : Bool) (a : Entry) (l : List Entry)
    (h : l.Pairwise (fun x y => compareTime asc x y ≤ 0)) :
    (stableInsert (compareTime asc) a l).Pairwise (fun x y => compareTime asc x y ≤ 0) := by
  induction l with
  | nil => simp [stableInsert]
  | cons b l ih =>
    rw [List.pairwise_cons] at h
    unfold stableInsert
    split_ifs with hab
    · refine List.Pairwise.cons ?_ (List.Pairwise.cons h.1 h.2)
      intro x hx
      rcases List.mem_cons.mp hx with rfl | hx
      · exact hab
      · have := h.1 x hx
        cases asc <;> simp only [compareTime] at * <;> simp at * <;> omega
    · refine List.Pairwise.cons ?_ (ih h.2)
      intro x hx
      rcases List.mem_cons.mp ((stableInsert_perm _ a l).mem_iff.mp hx) with rfl | hx
      · cases asc <;> simp only [compareTime] at * <;> simp at * <;> omega
      · exact h.1 x hx

/-- The result of the sort is ordered by the comparator. -/
theorem stableSort_sorted (asc : Bool) (l : List Entry) :
    (stableSort (compareTime asc) l).Pairwise (fun x y => compareTime asc x y ≤ 0) := by
  induction l with
  | nil => simp [stableSort]
  | cons a l ih =>
    unfold stableSort
    exact stableInsert_sorted asc a _ ih

/-- A list ordered by `modifyTime` whose times are pairwise different is strictly ordered. -/
theorem strict_of_sorted_nodup (l : List Entry)
    (h : l.Pairwise (fun x y => x.modifyTime ≤ y.modifyTime))
    (hn : (l.map Entry.modifyTime).Nodup) :
    l.Pairwise (fun x y => x.modifyTime < y.modifyTime) := by
  rw [List.Nodup, List.pairwise_map] at hn
  exact (h.and hn).imp (fun hxy => lt_of_le_of_ne hxy.1 hxy.2)

/-- C7: when no two entries of the snapshot share a `modifyTime`, `sortByTime(true)` is the
reverse of `sortByTime(false)`. -/
theorem C7_sortByTime_reverse (s : Scanner)
    (hdistinct : (s.files.map Entry.modifyTime).Nodup) :
    sortByTime s true = (sortByTime s false).reverse := by
  have hp1 : (sortByTime s true).Perm s.files := stableSort_perm _ _
  have hp2 : (sortByTime s false).reverse.Perm s.files :=
    (List.reverse_perm _).trans (stableSort_perm _ _)
  have hs1 : (sortByTime s true).Pairwise (fun x y => x.modifyTime ≤ y.modifyTime) := by
    have := stableSort_sorted true s.files
    refine this.imp ?_
    intro x y hxy
    simp only [compareTime] at hxy
    simp at hxy
    omega
  have hs2 : (sortByTime s false).reverse.Pairwise (fun x y => x.modifyTime ≤ y.modifyTime) := by
    rw [List.pairwise_reverse]
    have := stableSort_sorted false s.files
    refine this.imp ?_
    intro x y hxy
    simp only [compareTime] at hxy
    simp at hxy
    omega
  have hn1 : ((sortByTime s true).map Entry.modifyTime).Nodup :=
    ((hp1.map Entry.modifyTime).nodup_iff).mpr hdistinct
  have hn2 : ((sortByTime s false).reverse.map Entry.modifyTime).Nodup :=
    ((hp2.map Entry.modifyTime).nodup_iff).mpr hdistinct
  haveI : IsAntisymm Entry (fun x y => x.modifyTime < y.modifyTime) :=
    ⟨fun x y hxy hyx => absurd hxy (not_lt.mpr (le_of_lt hyx))⟩
  exact List.eq_of_perm_of_sorted (hp1.trans hp2.symm)
    (strict_of_sorted_nodup _ hs1 hn1) (strict_of_sorted_nodup _ hs2 hn2)

/-! ## End to end -/

/-- C5 as stated fails: with `FileStorage` directly in the only resolved root `/data`, the
scan takes `FileStorage` for a profile folder and yields no entry. -/
theorem C5_flat_root_yields_no_entry :
    (getWeChatPaths posix flatRootFS (Scanner.new "/data" false)).1 = ["/data"] ∧
    (scanWeChatFiles posix flatRootFS 8 0 1 (Scanner.new "/data" false)).map (fun r => r.1) =
      some [] := by
  decide

/-- C5 amended: with one profile folder `wxid_1` in the only resolved root `/data`, holding
`FileStorage/Image/2024-01/photo.png` (2000 bytes) and `FileStorage/Image/2024-01/9999`
(500 bytes), the scan yields exactly one entry, named `photo.png`, of type `image` and
year-month `2024-01`. -/
theorem C5_profile_root_yields_one_entry (fuel : Nat) (now nowEnd : Int) :
    (getWeChatPaths posix (profileFS "/data" "wxid_1") (Scanner.new "/data" false)).1 =
      ["/data"] ∧
    (scanWeChatFiles posix (profileFS "/data" "wxid_1") fuel now nowEnd
        (Scanner.new "/data" false)).map
      (fun r => r.1.map (fun e => (e.name, e.type, e.yearMonth, e.user, e.size))) =
      some [("photo.png", "image", "2024-01", "wxid_1", 2000)] := by
  refine ⟨by decide, ?_⟩
  rfl

/-! ## Catalog: cache hits -/

/-- C3 as stated fails.  First, the age of a snapshot is counted from the time it was stored,
not from the previous call: after a walk stored at time 1000, a call at 250000 is served from
the cache with no `fs` call, and a call at 500000, less than 300000 ms later, walks the file
system again (14 `fs` calls).  Second, when no root is resolved nothing is stored: two calls
in a row both probe the three default locations. -/
theorem C3_second_call_probes_again :
    ((scanWeChatFiles posix (profileFS "/data" "wxid_1") 8 0 1000
        (Scanner.new "/data" false)).bind (fun a =>
      (scanWeChatFiles posix (profileFS "/data" "wxid_1") 8 250000 250001 a.2.1).bind (fun b =>
        (scanWeChatFiles posix (profileFS "/data" "wxid_1") 8 500000 500001 b.2.1).map (fun c =>
          (b.2.2, decide ((500000 : Int) - 250000 < 300000), c.2.2.length,
            c.2.2.head?))))) =
      some ([], true, 14, some (Probe.access "/data")) ∧
    ((scanWeChatFiles posix emptyFS 8 0 1 (Scanner.new "" true)).bind (fun a =>
      (scanWeChatFiles posix emptyFS 8 2 3 a.2.1).map (fun b => (a.1, b.1, b.2.2)))) =
      some ([], [], [Probe.access "/home/u/Documents/WeChat Files",
        Probe.access ("/home/u/AppData/Local/Packages/" ++
          "TencentWeChatLimited.forWindows10_sdtnhv12zgd7a/LocalCache/Roaming/Tencent/" ++
          "WeChatAppStore/WeChatAppStore Files"),
        Probe.access "/home/u/Documents/xwechat_files"]) := by
  decide

/-- C3 amended: if a call of `scanWeChatFiles` returns a cached snapshot or resolves at least
one root, and the next call, with no setter or `clearCache` in between, reads a clock less
than 300000 ms after the `cacheTime` the first call left, then the next call makes no `fs`
call, returns the same entries and leaves the scanner as it was, whatever the file system. -/
theorem C3_second_scan_within_ttl_of_snapshot (P P2 : Platform) (fs fs2 : FileSystem)
    (fuel fuel2 : Nat) (now nowEnd now2 nowEnd2 : Int) (s s1 : Scanner) (r1 : List Entry)
    (log1 : List Probe)
    (hexp : s.cacheExpiry = 300000)
    (hfirst : scanWeChatFiles P fs fuel now nowEnd s = some (r1, s1, log1))
    (hsnap : isCacheValid s now = true ∨ (getWeChatPaths P fs s).1 ≠ [])
    (httl : now2 - s1.cacheTime < 300000) :
    scanWeChatFiles P2 fs2 fuel2 now2 nowEnd2 s1 = some (r1, s1, []) := by
  by_cases hv : isCacheValid s now = true
  · simp only [scanWeChatFiles, hv, if_true, Option.some.injEq, Prod.mk.injEq] at hfirst
    obtain ⟨hr, hs, _⟩ := hfirst
    subst hs
    have hsome : s.cache.isSome = true := by
      simp only [isCacheValid, Bool.and_eq_true] at hv
      exact hv.1
    have hv2 : isCacheValid s now2 = true := by
      simp only [isCacheValid, Bool.and_eq_true, decide_eq_true_eq, hsome, true_and, hexp]
      exact httl
    simp only [scanWeChatFiles, hv2, if_true, hr]
  · have hroots : (getWeChatPaths P fs s).1 ≠ [] := by
      rcases hsnap with h | h
      · exact absurd h hv
      · exact h
    have hlen : ¬ (getWeChatPaths P fs s).1.length = 0 := by
      simpa [List.length_eq_zero] using hroots
    simp only [scanWeChatFiles, hv, scanWeChatFilesUncached, hlen, if_false,
      Bool.false_eq_true] at hfirst
    cases hscan : scanRoots P fs fuel (getWeChatPaths P fs s).1
        { files := [], probes := (getWeChatPaths P fs s).2 } with
    | none => simp [hscan] at hfirst
    | some st =>
      simp only [hscan, Option.some.injEq, Prod.mk.injEq] at hfirst
      obtain ⟨hr, hs, _⟩ := hfirst
      subst hs
      subst hr
      have hv2 : isCacheValid
          { s with wechatPaths := (getWeChatPaths P fs s).1, files := st.files,
                   cache := some st.files, cacheTime := nowEnd } now2 = true := by
        simp only [isCacheValid, Option.isSome_some, Bool.true_and, decide_eq_true_eq, hexp]
        exact httl
      simp only [scanWeChatFiles, hv2, if_true, Option.getD_some]

/-- Witness of C3 amended: the walk of `/data` stored at time 1000 and a call at 250000. -/
theorem C3_second_scan_within_ttl_of_snapshot_witness :
    scanWeChatFiles posix emptyFS 0 250000 250001 cachedScanner =
      some ([], cachedScanner, []) :=
  C3_second_scan_within_ttl_of_snapshot posix posix
    (mkFileSystem [("/data", [])] []) emptyFS 1 0 0 1000 250000 250001
    (Scanner.new "/data" false) cachedScanner []
    [Probe.access "/data", Probe.access "/data", Probe.readdir "/data"]
    (by decide) (by decide) (Or.inr (by decide)) (by decide)

/-- Witness of C7: two entries with different times. -/
theorem C7_sortByTime_reverse_witness :
    sortByTime twoFilesScanner true = (sortByTime twoFilesScanner false).reverse :=
  C7_sortByTime_reverse twoFilesScanner (by decide)

/-! ## Catalog: statistics -/

/-- The fields of `getStats` as folds over the snapshot. -/
theorem getStats_fields (s : Scanner) :
    (getStats s).total = s.files.length ∧
    (getStats s).byType = (s.files.map Entry.type).foldl countUp [] ∧
    (getStats s).byUser = (s.files.map Entry.user).foldl countUp [] := by
  have gen : ∀ (files : List Entry) (st0 : FileStats),
      (files.foldl
        (fun stats file =>
          { stats with
            byType := countUp stats.byType file.type
            byUser := countUp stats.byUser file.user
            byMonth := countUp stats.byMonth file.yearMonth }) st0).total = st0.total ∧
      (files.foldl
        (fun stats file =>
          { stats with
            byType := countUp stats.byType file.type
            byUser := countUp stats.byUser file.user
            byMonth := countUp stats.byMonth file.yearMonth }) st0).byType =
        (files.map Entry.type).foldl countUp st0.byType ∧
      (files.foldl
        (fun stats file =>
          { stats with
            byType := countUp stats.byType file.type
            byUser := countUp stats.byUser file.user
            byMonth := countUp stats.byMonth file.yearMonth }) st0).byUser =
        (files.map Entry.user).foldl countUp st0.byUser := by
    intro files
    induction files with
    | nil => intro st0; exact ⟨rfl, rfl, rfl⟩
    | cons e rest ih =>
      intro st0
      simp only [List.foldl_cons, List.map_cons]
      exact ih _
  exact gen s.files _

theorem sumValues_setOwn_new (key : String) :
    ∀ (t : JSObject) (n : Nat), sumValues t = some n → t.lookup key = none →
      sumValues (JSObject.setOwn key (JSValue.number 1) t) = some (n + 1) := by
  intro t
  induction t with
  | nil =>
    intro n h _
    simp only [sumValues, Option.some.injEq] at h
    subst h
    rfl
  | cons x t ih =>
    intro n h hl
    obtain ⟨k, v⟩ := x
    have hk : (key == k) = false := by
      cases hb : key == k
      · rfl
      · simp [List.lookup, hb] at hl
    have hne : ¬ k = key := fun e => by simp [e] at hk
    simp only [List.lookup, hk] at hl
    cases v with
    | string str => simp [sumValues] at h
    | number m =>
      simp only [sumValues, Option.map_eq_some'] at h
      obtain ⟨r, hr, rfl⟩ := h
      simp only [JSObject.setOwn, if_neg hne, sumValues, ih r hr hl, Option.map_some']
      rw [Nat.add_assoc]

theorem sumValues_setOwn_bump (key : String) :
    ∀ (t : JSObject) (n m : Nat), sumValues t = some n →
      t.lookup key = some (JSValue.number m) →
      sumValues (JSObject.setOwn key (JSValue.number (m + 1)) t) = some (n + 1) := by
  intro t
  induction t with
  | nil => intro n m _ hl; simp [List.lookup] at hl
  | cons x t ih =>
    intro n m h hl
    obtain ⟨k, v⟩ := x
    cases v with
    | string str => simp [sumValues] at h
    | number v =>
      simp only [sumValues, Option.map_eq_some'] at h
      obtain ⟨r, hr, rfl⟩ := h
      by_cases hk : k = key
      · subst hk
        simp only [List.lookup, beq_self_eq_true, Option.some.injEq, JSValue.number.injEq] at hl
        subst hl
        simp only [JSObject.setOwn, if_true, sumValues, hr, Option.map_some']
        rw [Nat.add_right_comm]
      · have hb : (key == k) = false := by
          simpa using fun e : key = k => hk e.symm
        simp only [List.lookup, hb] at hl
        simp only [JSObject.setOwn, if_neg hk, sumValues, ih r m hr hl, Option.map_some']
        rw [Nat.add_assoc]

/-- Counting a key that `Object.prototype` does not define raises the sum of a table of
numbers by one. -/
theorem sumValues_countUp (t : JSObject) (key : String) (n : Nat)
    (hkey : objectPrototype.lookup key = none) (h : sumValues t = some n) :
    sumValues (countUp t key) = some (n + 1) := by
  have hproto : key ≠ "__proto__" := by
    rintro rfl
    revert hkey
    decide
  unfold countUp JSObject.set JSObject.get
  rw [if_neg hproto]
  cases hl : t.lookup key with
  | none =>
    simp only [hkey, orZeroPlusOne]
    exact sumValues_setOwn_new key t n h hl
  | some v =>
    cases v with
    | number m =>
      simp only [orZeroPlusOne]
      exact sumValues_setOwn_bump key t n m h hl
    | string str =>
      exfalso
      clear hkey hproto
      induction t generalizing n with
      | nil => simp [List.lookup] at hl
      | cons x t ih =>
        obtain ⟨k, w⟩ := x
        cases w with
        | string _ => simp [sumValues] at h
        | number w =>
          simp only [sumValues, Option.map_eq_some'] at h
          obtain ⟨r, hr, _⟩ := h
          cases hb : key == k
          · simp only [List.lookup, hb] at hl
            exact ih r hr hl
          · simp [List.lookup, hb] at hl

theorem sumValues_foldl_countUp :
    ∀ (keys : List String) (t : JSObject) (n : Nat),
      (∀ key ∈ keys, objectPrototype.lookup key = none) → sumValues t = some n →
      sumValues (keys.foldl countUp t) = some (n + keys.length) := by
  intro keys
  induction keys with
  | nil => intro t n _ h; simpa using h
  | cons key rest ih =>
    intro t n hk h
    rw [List.foldl_cons, ih _ (n + 1) (fun x hx => hk x (List.mem_cons_of_mem _ hx))
      (sumValues_countUp t key n (hk key (List.mem_cons_self _ _)) h)]
    simp only [List.length_cons]
    congr 1
    omega

/-- Outside the names `Object.prototype` defines, the statistics add up: `total` is the number
of entries, and it is the sum of `byType`, and of `byUser`, when no type, respectively no
user, is such a name. -/
theorem getStats_sums (s : Scanner) :
    (getStats s).total = s.files.length ∧
    ((∀ e ∈ s.files, objectPrototype.lookup e.type = none) →
      sumValues (getStats s).byType = some (getStats s).total) ∧
    ((∀ e ∈ s.files, objectPrototype.lookup e.user = none) →
      sumValues (getStats s).byUser = some (getStats s).total) := by
  obtain ⟨h1, h2, h3⟩ := getStats_fields s
  refine ⟨h1, ?_, ?_⟩
  · intro h
    rw [h2, h1, sumValues_foldl_countUp _ [] 0 (by simpa using h) rfl]
    simp
  · intro h
    rw [h3, h1, sumValues_foldl_countUp _ [] 0 (by simpa using h) rfl]
    simp

/-- C8 at a failing input: a profile folder named `__proto__` holding one accepted file gives
a snapshot of one entry, `total` 1 and `byType` summing to 1, but an empty `byUser`, whose
values sum to 0. -/
theorem C8_proto_profile_is_not_counted :
    (scanWeChatFiles posix (profileFS "/data" "__proto__") 8 0 1
        (Scanner.new "/data" false)).map (fun r => r.1.map Entry.user) = some ["__proto__"] ∧
    (scanWeChatFiles posix (profileFS "/data" "__proto__") 8 0 1
        (Scanner.new "/data" false)).map
      (fun r => ((getStats r.2.1).total, sumValues (getStats r.2.1).byType)) =
      some (1, some 1) ∧
    (scanWeChatFiles posix (profileFS "/data" "__proto__") 8 0 1
        (Scanner.new "/data" false)).map (fun r => (getStats r.2.1).byUser) = some [] ∧
    (scanWeChatFiles posix (profileFS "/data" "__proto__") 8 0 1
        (Scanner.new "/data" false)).map (fun r => sumValues (getStats r.2.1).byUser) =
      some (some 0) := by
  decide

/-! ## Distinct paths -/

@[simp] theorem ScanState.probe_files (st : ScanState) (p : Probe) :
    (st.probe p).files = st.files := rfl

@[simp] theorem ScanState.push_files (st : ScanState) (e : Entry) :
    (st.push e).files = st.files ++ [e] := rfl

theorem Tagged.refl (segs : String → List String) (T : List (List String)) (a : List Entry) :
    Tagged segs T a a :=
  ⟨[], by simp, by simp, by simp⟩

theorem Tagged.mono {segs : String → List String} {T T2 : List (List String)}
    {a b : List Entry} (h : Tagged segs T a b) (hT : ∀ t ∈ T, ∃ t2 ∈ T2, t2 <+: t) :
    Tagged segs T2 a b := by
  obtain ⟨new, h1, h2, h3⟩ := h
  refine ⟨new, h1, h2, fun e he => ?_⟩
  obtain ⟨t, ht, hp⟩ := h3 e he
  obtain ⟨t2, ht2, hp2⟩ := hT t ht
  exact ⟨t2, ht2, hp2.trans hp⟩

theorem Tagged.trans {segs : String → List String} {T1 T2 : List (List String)}
    {a b c : List Entry} (h1 : Tagged segs T1 a b) (h2 : Tagged segs T2 b c)
    (hd : ∀ t1 ∈ T1, ∀ t2 ∈ T2, ¬ t1 <+: t2 ∧ ¬ t2 <+: t1) :
    Tagged segs (T1 ++ T2) a c := by
  obtain ⟨n1, e1, nd1, p1⟩ := h1
  obtain ⟨n2, e2, nd2, p2⟩ := h2
  refine ⟨n1 ++ n2, by rw [e2, e1, List.append_assoc], ?_, ?_⟩
  · rw [List.map_append, List.nodup_append]
    refine ⟨nd1, nd2, ?_⟩
    intro p hp1 hp2
    obtain ⟨x, hx, rfl⟩ := List.mem_map.mp hp1
    obtain ⟨y, hy, hxy⟩ := List.mem_map.mp hp2
    obtain ⟨t1, ht1, q1⟩ := p1 x hx
    obtain ⟨t2, ht2, q2⟩ := p2 y hy
    rw [hxy] at q2
    rcases List.prefix_or_prefix_of_prefix q1 q2 with h | h
    · exact (hd t1 ht1 t2 ht2).1 h
    · exact (hd t1 ht1 t2 ht2).2 h
  · intro e he
    rcases List.mem_append.mp he with h | h
    · obtain ⟨t, ht, q⟩ := p1 e h
      exact ⟨t, List.mem_append_left _ ht, q⟩
    · obtain ⟨t, ht, q⟩ := p2 e h
      exact ⟨t, List.mem_append_right _ ht, q⟩

/-- Two trails that part ways after a common beginning are not prefixes of each other. -/
theorem not_prefix_of_ne (B : List String) {x y : String} (t1 t2 : List String) (h : x ≠ y) :
    ¬ (B ++ x :: t1) <+: (B ++ y :: t2) := by
  rw [List.prefix_append_right_inj, List.cons_prefix_cons]
  exact fun hp => h hp.1

theorem Tagged.cons_name {segs : String → List String} {B : List String} {b : String}
    {rest : List String} {f0 f1 f2 : List Entry} (hb : b ∉ rest)
    (h1 : Tagged segs [B ++ [b]] f0 f1)
    (h2 : Tagged segs (rest.map (fun n => B ++ [n])) f1 f2) :
    Tagged segs ((b :: rest).map (fun n => B ++ [n])) f0 f2 := by
  have h := Tagged.trans h1 h2 (by
    intro t1 ht1 t2 ht2
    rw [List.mem_singleton] at ht1
    subst ht1
    obtain ⟨n, hn, rfl⟩ := List.mem_map.mp ht2
    have hne : b ≠ n := fun h => hb (h ▸ hn)
    exact ⟨not_prefix_of_ne B [] [] hne, not_prefix_of_ne B [] [] (Ne.symm hne)⟩)
  simpa using h

theorem Tagged.skip_name {segs : String → List String} {B : List String} (b : String)
    {rest : List String} {f0 f1 : List Entry}
    (h : Tagged segs (rest.map (fun n => B ++ [n])) f0 f1) :
    Tagged segs ((b :: rest).map (fun n => B ++ [n])) f0 f1 :=
  h.mono (fun t ht => ⟨t, by simp only [List.map_cons]; exact List.mem_cons_of_mem _ ht,
    List.prefix_refl t⟩)

theorem Tagged.collapse {segs : String → List String} {B : List String} {names : List String}
    {f0 f1 : List Entry} (h : Tagged segs (names.map (fun n => B ++ [n])) f0 f1) :
    Tagged segs [B] f0 f1 :=
  h.mono (fun t ht => by
    obtain ⟨n, _, rfl⟩ := List.mem_map.mp ht
    exact ⟨B, List.mem_singleton.mpr rfl, List.prefix_append B [n]⟩)

theorem Tagged.under {segs : String → List String} {B : List String} (t : List String)
    {f0 f1 : List Entry} (h : Tagged segs [B ++ t] f0 f1) : Tagged segs [B] f0 f1 :=
  h.mono (fun u hu => by
    rw [List.mem_singleton] at hu
    subst hu
    exact ⟨B, List.mem_singleton.mpr rfl, List.prefix_append B t⟩)

/-- The names of the regular files, or of the directories, of a listing are plain and
pairwise different. -/
theorem PathModel.names {P : Platform} {fs : FileSystem} {segs : String → List String}
    (W : PathModel P fs segs) {p : String} {items : List Dirent}
    (h : fs.readdir p = some items) (keep : Dirent → Bool) :
    ((items.filter keep).map Dirent.name).Nodup ∧
      ∀ n ∈ (items.filter keep).map Dirent.name, plainName n = true := by
  refine ⟨(W.nodup p items h).sublist ((List.filter_sublist items).map _), ?_⟩
  intro n hn
  obtain ⟨d, hd, rfl⟩ := List.mem_map.mp hn
  exact W.plain p items h d (List.mem_filter.mp hd).1

theorem scanMonthFiles_tagged {P : Platform} {fs : FileSystem} {segs : String → List String}
    (W : PathModel P fs segs) (m type user ym : String) :
    ∀ (names : List String) (st : ScanState), names.Nodup →
      (∀ n ∈ names, plainName n = true) →
      Tagged segs (names.map (fun n => segs m ++ [n])) st.files
        (scanMonthFiles P fs m type user ym names st).files := by
  intro names
  induction names with
  | nil => intro st _ _; exact Tagged.refl _ _ _
  | cons f rest ih =>
    intro st hnd hpl
    have hf : f ∉ rest := (List.nodup_cons.mp hnd).1
    have hrest : rest.Nodup := (List.nodup_cons.mp hnd).2
    have hpl2 : ∀ n ∈ rest, plainName n = true := fun n hn => hpl n (List.mem_cons_of_mem _ hn)
    have hseg : segs (P.join [m, f]) = segs m ++ [f] :=
      W.join m [f] (by
        intro b hb
        rw [List.mem_singleton] at hb
        subst hb
        exact hpl b (List.mem_cons_self _ _))
    unfold scanMonthFiles
    by_cases hinc : (shouldIncludeFile P fs f (P.join [m, f])).1 = true
    · simp only [hinc, if_true]
      cases hst : fs.stat (P.join [m, f]) with
      | none => exact Tagged.refl _ _ _
      | some stats =>
        refine Tagged.cons_name hf ?_ (ih _ hrest hpl2)
        exact ⟨[_], rfl, by simp, by simp [hseg]⟩
    · simp only [hinc]
      exact Tagged.skip_name f (ih _ hrest hpl2)

theorem scanMonthFolder_tagged {P : Platform} {fs : FileSystem} {segs : String → List String}
    (W : PathModel P fs segs) (m type user ym : String) (st : ScanState) :
    Tagged segs [segs m] st.files (scanMonthFolder P fs m type user ym st).files := by
  unfold scanMonthFolder
  cases h : fs.readdir m with
  | none => exact Tagged.refl _ _ _
  | some items =>
    exact (scanMonthFiles_tagged W m type user ym _ _ (W.names h _).1 (W.names h _).2).collapse

theorem scanCategoryMonths_tagged {P : Platform} {fs : FileSystem}
    {segs : String → List String} (W : PathModel P fs segs) (c type user : String) :
    ∀ (names : List String) (st : ScanState), names.Nodup →
      (∀ n ∈ names, plainName n = true) →
      Tagged segs (names.map (fun n => segs c ++ [n])) st.files
        (scanCategoryMonths P fs c type user names st).files := by
  intro names
  induction names with
  | nil => intro st _ _; exact Tagged.refl _ _ _
  | cons ym rest ih =>
    intro st hnd hpl
    have hseg : segs (P.join [c, ym]) = segs c ++ [ym] :=
      W.join c [ym] (by
        intro b hb
        rw [List.mem_singleton] at hb
        subst hb
        exact hpl b (List.mem_cons_self _ _))
    unfold scanCategoryMonths
    refine Tagged.cons_name (List.nodup_cons.mp hnd).1 ?_
      (ih _ (List.nodup_cons.mp hnd).2 (fun n hn => hpl n (List.mem_cons_of_mem _ hn)))
    rw [← hseg]
    exact scanMonthFolder_tagged W _ type user ym st

theorem scanCategoryFolder_tagged {P : Platform} {fs : FileSystem}
    {segs : String → List String} (W : PathModel P fs segs) (c type user : String)
    (st : ScanState) :
    Tagged segs [segs c] st.files (scanCategoryFolder P fs c type user st).files := by
  unfold scanCategoryFolder
  cases h : fs.readdir c with
  | none => exact Tagged.refl _ _ _
  | some items =>
    exact (scanCategoryMonths_tagged W c type user _ _ (W.names h _).1 (W.names h _).2).collapse

theorem scanCategories_tagged {P : Platform} {fs : FileSystem}
    {segs : String → List String} (W : PathModel P fs segs) (base user : String) :
    ∀ (names : List String) (st : ScanState), names.Nodup →
      (∀ n ∈ names, plainName n = true) →
      Tagged segs (names.map (fun n => segs base ++ [n])) st.files
        (scanCategories P fs base user names st).files := by
  intro names
  induction names with
  | nil => intro st _ _; exact Tagged.refl _ _ _
  | cons cat rest ih =>
    intro st hnd hpl
    have hseg : segs (P.join [base, cat]) = segs base ++ [cat] :=
      W.join base [cat] (by
        intro b hb
        rw [List.mem_singleton] at hb
        subst hb
        exact hpl b (List.mem_cons_self _ _))
    unfold scanCategories
    refine Tagged.cons_name (List.nodup_cons.mp hnd).1 ?_
      (ih _ (List.nodup_cons.mp hnd).2 (fun n hn => hpl n (List.mem_cons_of_mem _ hn)))
    rw [← hseg]
    by_cases hacc : fs.access (P.join [base, cat]) = true
    · simp only [hacc, if_true]
      exact scanCategoryFolder_tagged W _ _ user _
    · simp only [hacc]
      exact Tagged.refl _ _ _

theorem categories_nodup : categories.Nodup := by decide

theorem categories_plain : ∀ n ∈ categories, plainName n = true := by decide

theorem scanMsgAttachSubs_tagged {P : Platform} {fs : FileSystem}
    {segs : String → List String} (W : PathModel P fs segs) (a user : String) :
    ∀ (names : List String) (st : ScanState), names.Nodup →
      (∀ n ∈ names, plainName n = true) →
      Tagged segs (names.map (fun n => segs a ++ [n])) st.files
        (scanMsgAttachSubs P fs a user names st).files := by
  intro names
  induction names with
  | nil => intro st _ _; exact Tagged.refl _ _ _
  | cons sub rest ih =>
    intro st hnd hpl
    have hseg : segs (P.join [a, sub]) = segs a ++ [sub] :=
      W.join a [sub] (by
        intro b hb
        rw [List.mem_singleton] at hb
        subst hb
        exact hpl b (List.mem_cons_self _ _))
    unfold scanMsgAttachSubs
    refine Tagged.cons_name (List.nodup_cons.mp hnd).1 ?_
      (ih _ (List.nodup_cons.mp hnd).2 (fun n hn => hpl n (List.mem_cons_of_mem _ hn)))
    rw [← hseg]
    exact (scanCategories_tagged W _ user categories st categories_nodup
      categories_plain).collapse

theorem scanMsgAttach_tagged {P : Platform} {fs : FileSystem}
    {segs : String → List String} (W : PathModel P fs segs) (a user : String)
    (st : ScanState) :
    Tagged segs [segs a] st.files (scanMsgAttach P fs a user st).files := by
  unfold scanMsgAttach
  cases h : fs.readdir a with
  | none => exact Tagged.refl _ _ _
  | some items =>
    exact (scanMsgAttachSubs_tagged W a user _ _ (W.names h _).1 (W.names h _).2).collapse

theorem recursiveScanItems_tagged {P : Platform} {fs : FileSystem}
    {segs : String → List String} (W : PathModel P fs segs)
    (recur : String → ScanState → Option ScanState)
    (hrec : ∀ p st st2, recur p st = some st2 → Tagged segs [segs p] st.files st2.files)
    (folder user : String) :
    ∀ (items : List Dirent) (st st2 : ScanState), (items.map Dirent.name).Nodup →
      (∀ d ∈ items, plainName d.name = true) →
      recursiveScanItems P fs recur folder user items st = some st2 →
      Tagged segs ((items.map Dirent.name).map (fun n => segs folder ++ [n])) st.files
        st2.files := by
  intro items
  induction items with
  | nil =>
    intro st st2 _ _ h
    simp only [recursiveScanItems, Option.some.injEq] at h
    subst h
    exact Tagged.refl _ _ _
  | cons item rest ih =>
    intro st st2 hnd hpl h
    rw [List.map_cons] at hnd
    have hf : item.name ∉ rest.map Dirent.name := (List.nodup_cons.mp hnd).1
    have hrest : (rest.map Dirent.name).Nodup := (List.nodup_cons.mp hnd).2
    have hpl2 : ∀ d ∈ rest, plainName d.name = true :=
      fun d hd => hpl d (List.mem_cons_of_mem _ hd)
    have hseg : segs (P.join [folder, item.name]) = segs folder ++ [item.name] :=
      W.join folder [item.name] (by
        intro b hb
        rw [List.mem_singleton] at hb
        subst hb
        exact hpl item (List.mem_cons_self _ _))
    unfold recursiveScanItems at h
    rw [List.map_cons]
    by_cases hdir : item.isDirectory = true
    · simp only [hdir, if_true] at h
      cases hr : recur (P.join [folder, item.name]) st with
      | none => simp [hr] at h
      | some st1 =>
        simp only [hr] at h
        refine Tagged.cons_name hf ?_ (ih _ _ hrest hpl2 h)
        rw [← hseg]
        exact hrec _ _ _ hr
    · simp only [hdir, Bool.false_eq_true, if_false] at h
      by_cases hfile : item.isFile = true
      · simp only [hfile, if_true] at h
        by_cases hinc : (shouldIncludeFile P fs item.name (P.join [folder, item.name])).1 = true
        · simp only [hinc, if_true] at h
          cases hst : fs.stat (P.join [folder, item.name]) with
          | none =>
            simp only [hst, Option.some.injEq] at h
            subst h
            exact Tagged.refl _ _ _
          | some stats =>
            simp only [hst] at h
            refine Tagged.cons_name hf ?_ (ih _ _ hrest hpl2 h)
            exact ⟨[_], rfl, by simp, by simp [hseg]⟩
        · simp only [hinc, Bool.false_eq_true, if_false] at h
          have hrec2 := ih _ _ hrest hpl2 h
          exact Tagged.skip_name _ hrec2
      · simp only [hfile, Bool.false_eq_true, if_false] at h
        exact Tagged.skip_name _ (ih _ _ hrest hpl2 h)

theorem recursiveScan_tagged {P : Platform} {fs : FileSystem}
    {segs : String → List String} (W : PathModel P fs segs) (user : String) :
    ∀ (fuel : Nat) (folder : String) (st st2 : ScanState),
      recursiveScan P fs fuel folder user st = some st2 →
      Tagged segs [segs folder] st.files st2.files := by
  intro fuel
  induction fuel with
  | zero =>
    intro folder st st2 h
    simp [recursiveScan] at h
  | succ fuel ih =>
    intro folder st st2 h
    unfold recursiveScan at h
    cases hr : fs.readdir folder with
    | none =>
      simp only [hr, Option.some.injEq] at h
      subst h
      exact Tagged.refl _ _ _
    | some items =>
      simp only [hr] at h
      exact (recursiveScanItems_tagged W _ (fun p st st2 hp => ih p st st2 hp) folder user
        items _ st2 (W.nodup _ _ hr) (W.plain _ _ hr) h).collapse

theorem scanMsgSubs_tagged {P : Platform} {fs : FileSystem}
    {segs : String → List String} (W : PathModel P fs segs) (fuel : Nat) (m user : String) :
    ∀ (names : List String) (st st2 : ScanState), names.Nodup →
      (∀ n ∈ names, plainName n = true) →
      scanMsgSubs P fs fuel m user names st = some st2 →
      Tagged segs (names.map (fun n => segs m ++ [n])) st.files st2.files := by
  intro names
  induction names with
  | nil =>
    intro st st2 _ _ h
    simp only [scanMsgSubs, Option.some.injEq] at h
    subst h
    exact Tagged.refl _ _ _
  | cons sub rest ih =>
    intro st st2 hnd hpl h
    have hseg : segs (P.join [m, sub]) = segs m ++ [sub] :=
      W.join m [sub] (by
        intro b hb
        rw [List.mem_singleton] at hb
        subst hb
        exact hpl b (List.mem_cons_self _ _))
    unfold scanMsgSubs at h
    cases hr : recursiveScan P fs fuel (P.join [m, sub]) user st with
    | none => simp [hr] at h
    | some st1 =>
      simp only [hr] at h
      refine Tagged.cons_name (List.nodup_cons.mp hnd).1 ?_
        (ih _ _ (List.nodup_cons.mp hnd).2 (fun n hn => hpl n (List.mem_cons_of_mem _ hn)) h)
      rw [← hseg]
      exact recursiveScan_tagged W user fuel _ _ _ hr

theorem scanMsgFolder_tagged {P : Platform} {fs : FileSystem}
    {segs : String → List String} (W : PathModel P fs segs) (fuel : Nat) (m user : String)
    (st st2 : ScanState) (h : scanMsgFolder P fs fuel m user st = some st2) :
    Tagged segs [segs m] st.files st2.files := by
  unfold scanMsgFolder at h
  cases hr : fs.readdir m with
  | none =>
    simp only [hr, Option.some.injEq] at h
    subst h
    exact Tagged.refl _ _ _
  | some items =>
    simp only [hr] at h
    exact (scanMsgSubs_tagged W fuel m user _ _ st2 (W.names hr _).1 (W.names hr _).2 h).collapse

/-- The three strategies of one profile folder write under different trails. -/
theorem Tagged.user_blocks {segs : String → List String} (BU : List String)
    {f0 f1 f2 f3 : List Entry}
    (h1 : Tagged segs (categories.map (fun n => (BU ++ ["FileStorage"]) ++ [n])) f0 f1)
    (h2 : Tagged segs [BU ++ ["msg"]] f1 f2)
    (h3 : Tagged segs [BU ++ ["FileStorage", "MsgAttach"]] f2 f3) :
    Tagged segs [BU] f0 f3 := by
  have h12 := Tagged.trans h1 h2 (by
    intro t1 ht1 t2 ht2
    obtain ⟨n, _, rfl⟩ := List.mem_map.mp ht1
    rw [List.mem_singleton] at ht2
    subst ht2
    rw [List.append_assoc]
    exact ⟨not_prefix_of_ne BU [n] [] (by decide), not_prefix_of_ne BU [] [n] (by decide)⟩)
  have h123 := Tagged.trans h12 h3 (by
    intro t1 ht1 t2 ht2
    rw [List.mem_singleton] at ht2
    subst ht2
    rcases List.mem_append.mp ht1 with h | h
    · obtain ⟨n, hn, rfl⟩ := List.mem_map.mp h
      have hne : n ≠ "MsgAttach" := by
        rintro rfl
        revert hn
        decide
      have e : BU ++ ["FileStorage", "MsgAttach"] = (BU ++ ["FileStorage"]) ++ ["MsgAttach"] := by
        simp
      rw [e]
      exact ⟨not_prefix_of_ne _ [] [] hne, not_prefix_of_ne _ [] [] (Ne.symm hne)⟩
    · rw [List.mem_singleton] at h
      subst h
      exact ⟨not_prefix_of_ne BU [] ["MsgAttach"] (by decide),
        not_prefix_of_ne BU ["MsgAttach"] [] (by decide)⟩)
  refine h123.mono ?_
  intro t ht
  refine ⟨BU, List.mem_singleton.mpr rfl, ?_⟩
  simp only [List.mem_append, List.mem_map, List.mem_singleton] at ht
  rcases ht with (⟨n, _, rfl⟩ | rfl) | rfl
  · rw [List.append_assoc]
    exact List.prefix_append _ _
  · exact List.prefix_append _ _
  · exact List.prefix_append _ _

theorem scanUser_tagged {P : Platform} {fs : FileSystem}
    {segs : String → List String} (W : PathModel P fs segs) (fuel : Nat) (root user : String)
    (hu : plainName user = true) (st st2 : ScanState)
    (h : scanUser P fs fuel root user st = some st2) :
    Tagged segs [segs root ++ [user]] st.files st2.files := by
  have hU : segs (P.join [root, user]) = segs root ++ [user] :=
    W.join root [user] (by
      intro b hb
      rw [List.mem_singleton] at hb
      subst hb
      exact hu)
  have hF : segs (P.join [P.join [root, user], "FileStorage"]) =
      (segs root ++ [user]) ++ ["FileStorage"] := by
    rw [W.join _ ["FileStorage"] (by decide), hU]
  have hM : segs (P.join [P.join [root, user], "msg"]) = (segs root ++ [user]) ++ ["msg"] := by
    rw [W.join _ ["msg"] (by decide), hU]
  have hA : segs (P.join [P.join [root, user], "FileStorage", "MsgAttach"]) =
      (segs root ++ [user]) ++ ["FileStorage", "MsgAttach"] := by
    rw [W.join _ ["FileStorage", "MsgAttach"] (by decide), hU]
  unfold scanUser at h
  simp only at h
  have key1 : ∀ s0 : ScanState,
      Tagged segs (categories.map (fun n => ((segs root ++ [user]) ++ ["FileStorage"]) ++ [n]))
        s0.files
        (if fs.access (P.join [P.join [root, user], "FileStorage"]) = true then
          scanFileStorage P fs (P.join [P.join [root, user], "FileStorage"]) user
            (s0.probe (Probe.access (P.join [P.join [root, user], "FileStorage"])))
        else s0.probe (Probe.access (P.join [P.join [root, user], "FileStorage"]))).files := by
    intro s0
    rw [← hF]
    split_ifs
    · exact scanCategories_tagged W _ user categories _ categories_nodup categories_plain
    · exact Tagged.refl _ _ _
  have key3 : ∀ s0 : ScanState,
      Tagged segs [(segs root ++ [user]) ++ ["FileStorage", "MsgAttach"]] s0.files
        (if fs.access (P.join [P.join [root, user], "FileStorage", "MsgAttach"]) = true then
          scanMsgAttach P fs (P.join [P.join [root, user], "FileStorage", "MsgAttach"]) user
            (s0.probe (Probe.access (P.join [P.join [root, user], "FileStorage", "MsgAttach"])))
        else s0.probe
          (Probe.access (P.join [P.join [root, user], "FileStorage", "MsgAttach"]))).files := by
    intro s0
    rw [← hA]
    split_ifs
    · exact scanMsgAttach_tagged W _ user _
    · exact Tagged.refl _ _ _
  have key2 : ∀ s0 s4 : ScanState,
      (if fs.access (P.join [P.join [root, user], "msg"]) = true then
          scanMsgFolder P fs fuel (P.join [P.join [root, user], "msg"]) user
            (s0.probe (Probe.access (P.join [P.join [root, user], "msg"])))
        else some (s0.probe (Probe.access (P.join [P.join [root, user], "msg"])))) = some s4 →
      Tagged segs [(segs root ++ [user]) ++ ["msg"]] s0.files s4.files := by
    intro s0 s4 h4
    rw [← hM]
    split_ifs at h4
    · have h5 := scanMsgFolder_tagged W fuel _ user _ _ h4
      exact h5
    · simp only [Option.some.injEq] at h4
      subst h4
      exact Tagged.refl _ _ _
  split at h
  · cases h
  · rename_i st4 hm
    simp only [Option.some.injEq] at h
    subst h
    exact Tagged.user_blocks (segs root ++ [user]) (key1 st) (key2 _ _ hm) (key3 st4)

theorem scanUsers_tagged {P : Platform} {fs : FileSystem}
    {segs : String → List String} (W : PathModel P fs segs) (fuel : Nat) (root : String) :
    ∀ (names : List String) (st st2 : ScanState), names.Nodup →
      (∀ n ∈ names, plainName n = true) →
      scanUsers P fs fuel root names st = some st2 →
      Tagged segs (names.map (fun n => segs root ++ [n])) st.files st2.files := by
  intro names
  induction names with
  | nil =>
    intro st st2 _ _ h
    simp only [scanUsers, Option.some.injEq] at h
    subst h
    exact Tagged.refl _ _ _
  | cons user rest ih =>
    intro st st2 hnd hpl h
    unfold scanUsers at h
    cases hr : scanUser P fs fuel root user st with
    | none => simp [hr] at h
    | some st1 =>
      simp only [hr] at h
      exact Tagged.cons_name (List.nodup_cons.mp hnd).1
        (scanUser_tagged W fuel root user (hpl user (List.mem_cons_self _ _)) _ _ hr)
        (ih _ _ (List.nodup_cons.mp hnd).2 (fun n hn => hpl n (List.mem_cons_of_mem _ hn)) h)

theorem scanRoot_tagged {P : Platform} {fs : FileSystem}
    {segs : String → List String} (W : PathModel P fs segs) (fuel : Nat) (root : String)
    (st st2 : ScanState) (h : scanRoot P fs fuel root st = some st2) :
    Tagged segs [segs root] st.files st2.files := by
  unfold scanRoot at h
  simp only at h
  split_ifs at h
  · cases hr : fs.readdir root with
    | none =>
      simp only [hr, Option.some.injEq] at h
      subst h
      exact Tagged.refl _ _ _
    | some items =>
      simp only [hr] at h
      have h2 := scanUsers_tagged W fuel root _ _ st2 (W.names hr _).1 (W.names hr _).2 h
      exact h2.collapse
  · simp only [Option.some.injEq] at h
    subst h
    exact Tagged.refl _ _ _

theorem scanRoots_tagged {P : Platform} {fs : FileSystem}
    {segs : String → List String} (W : PathModel P fs segs) (fuel : Nat) :
    ∀ (roots : List String) (st st2 : ScanState), UnrelatedRoots segs roots →
      scanRoots P fs fuel roots st = some st2 →
      Tagged segs (roots.map segs) st.files st2.files := by
  intro roots
  induction roots with
  | nil =>
    intro st st2 _ h
    simp only [scanRoots, Option.some.injEq] at h
    subst h
    exact Tagged.refl _ _ _
  | cons root rest ih =>
    intro st st2 hun h
    unfold UnrelatedRoots at hun
    rw [List.pairwise_cons] at hun
    unfold scanRoots at h
    cases hr : scanRoot P fs fuel root st with
    | none => simp [hr] at h
    | some st1 =>
      simp only [hr] at h
      have h1 := scanRoot_tagged W fuel root _ _ hr
      have h2 := ih _ _ hun.2 h
      have h3 := Tagged.trans h1 h2 (by
        intro t1 ht1 t2 ht2
        rw [List.mem_singleton] at ht1
        subst ht1
        obtain ⟨b, hb, rfl⟩ := List.mem_map.mp ht2
        exact hun.1 b hb)
      simpa using h3

/-- The paths of the entries of one uncached pass are pairwise different when no resolved root
is equal to or inside another. -/
theorem scanWeChatFilesUncached_nodup {P : Platform} {fs : FileSystem}
    {segs : String → List String} (W : PathModel P fs segs) (s : Scanner)
    (hroots : UnrelatedRoots segs (getWeChatPaths P fs s).1)
    (fuel : Nat) (nowEnd : Int) (r : List Entry) (s1 : Scanner) (log : List Probe)
    (h : scanWeChatFilesUncached P fs fuel nowEnd s = some (r, s1, log)) :
    (r.map Entry.path).Nodup := by
  unfold scanWeChatFilesUncached at h
  simp only at h
  split_ifs at h
  · simp only [Option.some.injEq, Prod.mk.injEq] at h
    rw [← h.1]
    exact List.nodup_nil
  · cases hr : scanRoots P fs fuel (getWeChatPaths P fs s).1
        { files := [], probes := (getWeChatPaths P fs s).2 } with
    | none => simp [hr] at h
    | some st =>
      simp only [hr, Option.some.injEq, Prod.mk.injEq] at h
      obtain ⟨new, h1, h2, _⟩ := scanRoots_tagged W fuel _ _ _ hroots hr
      rw [← h.1, h1]
      simpa using h2

/-! ## Termination -/

theorem recursiveScanItems_total (P : Platform) (fs : FileSystem)
    (recur : String → ScanState → Option ScanState) (folder user : String) :
    ∀ (items : List Dirent),
      (∀ d ∈ items, d.isDirectory = true → ∀ st, ∃ st2, recur (P.join [folder, d.name]) st = some st2) →
      ∀ st, ∃ st2, recursiveScanItems P fs recur folder user items st = some st2 := by
  intro items
  induction items with
  | nil => intro _ st; exact ⟨st, rfl⟩
  | cons item rest ih =>
    intro hrec st
    have ih2 := ih (fun d hd => hrec d (List.mem_cons_of_mem _ hd))
    unfold recursiveScanItems
    by_cases hdir : item.isDirectory = true
    · obtain ⟨st1, h1⟩ := hrec item (List.mem_cons_self _ _) hdir st
      simp only [hdir, if_true, h1]
      exact ih2 st1
    · simp only [hdir, Bool.false_eq_true, if_false]
      split_ifs
      · split
        · exact ⟨_, rfl⟩
        · exact ih2 _
      · exact ih2 _
      · exact ih2 _

theorem recursiveScan_total {P : Platform} {fs : FileSystem} {depth : String → Nat}
    {bound : Nat} (F : FiniteTree P fs depth bound) (user : String) :
    ∀ (fuel : Nat) (folder : String) (st : ScanState), depth folder < fuel →
      ∃ st2, recursiveScan P fs fuel folder user st = some st2 := by
  intro fuel
  induction fuel with
  | zero => intro folder st h; omega
  | succ fuel ih =>
    intro folder st h
    unfold recursiveScan
    cases hr : fs.readdir folder with
    | none => exact ⟨_, rfl⟩
    | some items =>
      simp only
      apply recursiveScanItems_total
      intro d hd hdir st1
      exact ih _ st1 (by have := F.descends folder items hr d hd hdir; omega)

theorem scanMsgSubs_total {P : Platform} {fs : FileSystem} {depth : String → Nat}
    {bound : Nat} (F : FiniteTree P fs depth bound) (m user : String) :
    ∀ (names : List String) (st : ScanState),
      ∃ st2, scanMsgSubs P fs bound m user names st = some st2 := by
  intro names
  induction names with
  | nil => intro st; exact ⟨st, rfl⟩
  | cons sub rest ih =>
    intro st
    obtain ⟨st1, h1⟩ := recursiveScan_total F user bound (P.join [m, sub]) st (F.bounded _)
    unfold scanMsgSubs
    simp only [h1]
    exact ih st1

theorem scanMsgFolder_total {P : Platform} {fs : FileSystem} {depth : String → Nat}
    {bound : Nat} (F : FiniteTree P fs depth bound) (m user : String) (st : ScanState) :
    ∃ st2, scanMsgFolder P fs bound m user st = some st2 := by
  unfold scanMsgFolder
  cases fs.readdir m with
  | none => exact ⟨_, rfl⟩
  | some items => exact scanMsgSubs_total F m user _ _

theorem scanUser_total {P : Platform} {fs : FileSystem} {depth : String → Nat}
    {bound : Nat} (F : FiniteTree P fs depth bound) (root user : String) (st : ScanState) :
    ∃ st2, scanUser P fs bound root user st = some st2 := by
  have hm : ∀ s0 : ScanState, (if fs.access (P.join [P.join [root, user], "msg"]) = true then
      scanMsgFolder P fs bound (P.join [P.join [root, user], "msg"]) user s0
      else some s0) ≠ none := by
    intro s0
    split_ifs
    · obtain ⟨st4, h4⟩ := scanMsgFolder_total F (P.join [P.join [root, user], "msg"]) user s0
      rw [h4]
      exact Option.some_ne_none _
    · exact Option.some_ne_none _
  unfold scanUser
  simp only
  split
  · rename_i hnone
    exact absurd hnone (hm _)
  · exact ⟨_, rfl⟩

theorem scanUsers_total {P : Platform} {fs : FileSystem} {depth : String → Nat}
    {bound : Nat} (F : FiniteTree P fs depth bound) (root : String) :
    ∀ (names : List String) (st : ScanState),
      ∃ st2, scanUsers P fs bound root names st = some st2 := by
  intro names
  induction names with
  | nil => intro st; exact ⟨st, rfl⟩
  | cons user rest ih =>
    intro st
    obtain ⟨st1, h1⟩ := scanUser_total F root user st
    unfold scanUsers
    simp only [h1]
    exact ih st1

theorem scanRoots_total {P : Platform} {fs : FileSystem} {depth : String → Nat}
    {bound : Nat} (F : FiniteTree P fs depth bound) :
    ∀ (roots : List String) (st : ScanState),
      ∃ st2, scanRoots P fs bound roots st = some st2 := by
  intro roots
  induction roots with
  | nil => intro st; exact ⟨st, rfl⟩
  | cons root rest ih =>
    intro st
    have h1 : ∃ st1, scanRoot P fs bound root st = some st1 := by
      unfold scanRoot
      simp only
      split_ifs
      · cases fs.readdir root with
        | none => exact ⟨_, rfl⟩
        | some items => exact scanUsers_total F root _ _
      · exact ⟨_, rfl⟩
    obtain ⟨st1, h1⟩ := h1
    unfold scanRoots
    simp only [h1]
    exact ih st1

/-- On a finite directory tree the uncached pass returns, with the bound as fuel. -/
theorem scanWeChatFilesUncached_total {P : Platform} {fs : FileSystem} {depth : String → Nat}
    {bound : Nat} (F : FiniteTree P fs depth bound) (nowEnd : Int) (s : Scanner) :
    ∃ r, scanWeChatFilesUncached P fs bound nowEnd s = some r := by
  unfold scanWeChatFilesUncached
  simp only
  split_ifs
  · exact ⟨_, rfl⟩
  · obtain ⟨st, h⟩ := scanRoots_total F (getWeChatPaths P fs s).1
      { files := [], probes := (getWeChatPaths P fs s).2 }
    rw [h]
    exact ⟨_, rfl⟩

/-! ## The POSIX fixture satisfies the path model -/

theorem splitSlash_ne_nil (cs : List Char) : splitSlash cs ≠ [] := by
  cases cs with
  | nil => simp [splitSlash]
  | cons c cs =>
    unfold splitSlash
    split_ifs
    · simp
    · split <;> simp

theorem splitSlash_cons (c : Char) (cs : List Char) :
    splitSlash (c :: cs) =
      if c = '/' then [] :: splitSlash cs
      else
        match splitSlash cs with
        | [] => [[c]]
        | piece :: pieces => (c :: piece) :: pieces := rfl

theorem splitSlash_append (xs ys : List Char) :
    splitSlash (xs ++ '/' :: ys) = splitSlash xs ++ splitSlash ys := by
  induction xs with
  | nil => simp [splitSlash_cons, splitSlash]
  | cons c xs ih =>
    rw [List.cons_append, splitSlash_cons, splitSlash_cons, ih]
    split_ifs
    · rw [List.cons_append]
    · cases h : splitSlash xs with
      | nil => exact absurd h (splitSlash_ne_nil xs)
      | cons piece pieces => simp

theorem splitSlash_plain (b : List Char) (h : '/' ∉ b) : splitSlash b = [b] := by
  induction b with
  | nil => rfl
  | cons c cs ih =>
    have hc : c ≠ '/' := fun e => h (e ▸ List.mem_cons_self _ _)
    have hcs : '/' ∉ cs := fun e => h (List.mem_cons_of_mem _ e)
    rw [splitSlash_cons]
    simp only [hc, if_false, ih hcs]

theorem segmentChars_append (xs ys : List Char) :
    segmentChars (xs ++ '/' :: ys) = segmentChars xs ++ segmentChars ys := by
  simp only [segmentChars, splitSlash_append, List.filter_append]

theorem segmentChars_plain (b : List Char) (hne : b ≠ []) (h : '/' ∉ b) :
    segmentChars b = [b] := by
  simp [segmentChars, splitSlash_plain b h, hne]

theorem segmentChars_joinChars :
    ∀ (rs : List (List Char)) (a : List Char), (∀ r ∈ rs, r ≠ [] ∧ '/' ∉ r) →
      segmentChars (joinChars (a :: rs)) = segmentChars a ++ rs := by
  intro rs
  induction rs with
  | nil => intro a _; simp [joinChars]
  | cons r rs ih =>
    intro a h
    have hr := h r (List.mem_cons_self _ _)
    rw [joinChars, segmentChars_append, ih r (fun x hx => h x (List.mem_cons_of_mem _ hx)),
      segmentChars_plain r hr.1 hr.2]
    simp

theorem plainName_data {b : String} (h : plainName b = true) : b.data ≠ [] ∧ '/' ∉ b.data := by
  simp only [plainName, Bool.and_eq_true, decide_eq_true_eq, Bool.not_eq_true',
    List.contains_eq_any_beq, List.any_eq_false, beq_iff_eq] at h
  refine ⟨?_, ?_⟩
  · intro hd
    apply h.1.1.1.1
    cases b
    simp only at hd
    rw [hd]
  · intro hm
    exact h.1.2 _ hm rfl

/-- The fixture `posixJoin` appends plain names to the segments of a path. -/
theorem posixJoin_segments (a : String) (rest : List String)
    (h : ∀ b ∈ rest, plainName b = true) :
    pathSegments (posixJoin (a :: rest)) = pathSegments a ++ rest := by
  have hfilter : rest.filter (fun part => decide (part ≠ "")) = rest := by
    rw [List.filter_eq_self]
    intro b hb
    have := (plainName_data (h b hb)).1
    simp only [decide_eq_true_eq]
    intro hbe
    apply this
    rw [hbe]
  have hdata : ∀ r ∈ rest.map String.data, r ≠ [] ∧ '/' ∉ r := by
    intro r hr
    obtain ⟨b, hb, rfl⟩ := List.mem_map.mp hr
    exact plainName_data (h b hb)
  have hback : (rest.map String.data).map String.mk = rest := by
    rw [List.map_map]
    exact (List.map_congr_left (fun _ _ => rfl)).trans (List.map_id _)
  unfold pathSegments posixJoin
  rw [List.filter_cons]
  by_cases ha : a = ""
  · subst ha
    simp only [ne_eq, not_true_eq_false, decide_False, Bool.false_eq_true, if_false, hfilter]
    cases hrest : rest with
    | nil => rfl
    | cons r rs =>
      rw [hrest] at hdata hback
      rw [List.map_cons] at hdata
      rw [List.map_cons, segmentChars_joinChars _ _
        (fun x hx => hdata x (List.mem_cons_of_mem _ hx)),
        segmentChars_plain _ (hdata _ (List.mem_cons_self _ _)).1
          (hdata _ (List.mem_cons_self _ _)).2]
      have hnil : segmentChars [] = [] := rfl
      rw [hnil]
      simpa using hback
  · simp only [ne_eq, ha, not_false_eq_true, decide_True, if_true, hfilter, List.map_cons]
    rw [segmentChars_joinChars _ _ hdata, List.map_append, hback]

theorem lookup_mem {β : Type} :
    ∀ (l : List (String × β)) (p : String) (v : β), l.lookup p = some v → (p, v) ∈ l := by
  intro l
  induction l with
  | nil => intro p v h; simp [List.lookup] at h
  | cons x l ih =>
    intro p v h
    obtain ⟨k, w⟩ := x
    by_cases hk : p = k
    · subst hk
      simp only [List.lookup, beq_self_eq_true, Option.some.injEq] at h
      subst h
      exact List.mem_cons_self _ _
    · have hb : (p == k) = false := by simpa using hk
      simp only [List.lookup, hb] at h
      exact List.mem_cons_of_mem _ (ih p v h)

/-- The fixture `profileFS "/data" "wxid_1"` on the POSIX host satisfies the path model. -/
theorem profileFS_pathModel : PathModel posix (profileFS "/data" "wxid_1") pathSegments := by
  have hall : ∀ x ∈ profileDirs "/data" "wxid_1",
      (∀ d ∈ x.2, plainName d.name = true) ∧ (x.2.map Dirent.name).Nodup := by decide
  refine ⟨posixJoin_segments, ?_, ?_⟩
  · intro p items h
    exact (hall _ (lookup_mem _ p items h)).1
  · intro p items h
    exact (hall _ (lookup_mem _ p items h)).2

/-- The fixture `profileFS "/data" "wxid_1"` is a finite tree. -/
theorem profileFS_finiteTree :
    FiniteTree posix (profileFS "/data" "wxid_1") fixtureDepth 9 := by
  have hall : ∀ x ∈ profileDirs "/data" "wxid_1", ∀ d ∈ x.2, d.isDirectory = true →
      fixtureDepth (posix.join [x.1, d.name]) < fixtureDepth x.1 := by decide
  refine ⟨?_, ?_⟩
  · intro p
    unfold fixtureDepth
    omega
  · intro p items h
    exact hall _ (lookup_mem _ p items h)

/-- C6 as stated fails: with the custom path set to the default location
`~/Documents/WeChat Files` and the default paths enabled, the root is resolved twice and the
one accepted file is listed twice, under the same path. -/
theorem C6_same_root_twice_duplicates_paths :
    (getWeChatPaths posix (profileFS "/home/u/Documents/WeChat Files" "wxid_1")
        (Scanner.new "/home/u/Documents/WeChat Files" true)).1 =
      ["/home/u/Documents/WeChat Files", "/home/u/Documents/WeChat Files"] ∧
    (scanWeChatFiles posix (profileFS "/home/u/Documents/WeChat Files" "wxid_1") 8 0 1
        (Scanner.new "/home/u/Documents/WeChat Files" true)).map
      (fun r => r.1.map Entry.path) =
      some ["/home/u/Documents/WeChat Files/wxid_1/FileStorage/Image/2024-01/photo.png",
        "/home/u/Documents/WeChat Files/wxid_1/FileStorage/Image/2024-01/photo.png"] ∧
    ¬ (["/home/u/Documents/WeChat Files/wxid_1/FileStorage/Image/2024-01/photo.png",
        "/home/u/Documents/WeChat Files/wxid_1/FileStorage/Image/2024-01/photo.png"] :
        List String).Nodup := by
  decide

/-- C6 amended: on a platform whose `path.join` appends plain names to the segments of a path,
and a finite, unchanging file system whose listings hold plain names, each once, if no resolved
root is equal to or inside another resolved root, then a `scanWeChatFiles` call that finds no
valid cache returns, and the entries it returns have pairwise different paths. -/
theorem C6_distinct_paths_for_unrelated_roots (P : Platform) (fs : FileSystem)
    (segs : String → List String) (depth : String → Nat) (bound : Nat)
    (W : PathModel P fs segs) (F : FiniteTree P fs depth bound) (s : Scanner)
    (now nowEnd : Int) (hfresh : isCacheValid s now = false)
    (hroots : UnrelatedRoots segs (getWeChatPaths P fs s).1) :
    (∃ r, scanWeChatFiles P fs bound now nowEnd s = some r) ∧
    ∀ fuel r s1 log, scanWeChatFiles P fs fuel now nowEnd s = some (r, s1, log) →
      (r.map Entry.path).Nodup := by
  have huncached : ∀ fuel, scanWeChatFiles P fs fuel now nowEnd s =
      scanWeChatFilesUncached P fs fuel nowEnd s := by
    intro fuel
    simp [scanWeChatFiles, hfresh]
  refine ⟨?_, ?_⟩
  · rw [huncached]
    exact scanWeChatFilesUncached_total F nowEnd s
  · intro fuel r s1 log h
    rw [huncached] at h
    exact scanWeChatFilesUncached_nodup W s hroots fuel nowEnd r s1 log h

/-- The fixture `twoRootFS` on the POSIX host satisfies the path model. -/
theorem twoRootFS_pathModel : PathModel posix twoRootFS pathSegments := by
  have hall : ∀ x ∈ twoRootDirs,
      (∀ d ∈ x.2, plainName d.name = true) ∧ (x.2.map Dirent.name).Nodup := by decide
  refine ⟨posixJoin_segments, ?_, ?_⟩
  · intro p items h
    exact (hall _ (lookup_mem _ p items h)).1
  · intro p items h
    exact (hall _ (lookup_mem _ p items h)).2

/-- The fixture `twoRootFS` is a finite tree. -/
theorem twoRootFS_finiteTree : FiniteTree posix twoRootFS fixtureDepth 9 := by
  have hall : ∀ x ∈ twoRootDirs, ∀ d ∈ x.2, d.isDirectory = true →
      fixtureDepth (posix.join [x.1, d.name]) < fixtureDepth x.1 := by decide
  refine ⟨?_, ?_⟩
  · intro p
    unfold fixtureDepth
    omega
  · intro p items h
    exact hall _ (lookup_mem _ p items h)

/-- Witness of C6 amended: the two roots `/data` and `~/Documents/WeChat Files` of `twoRootFS`,
neither inside the other.  The pass walks both, through the category folders, the `msg` folder
and the `MsgAttach` folder, and returns six entries, whose paths are pairwise different. -/
theorem C6_distinct_paths_for_unrelated_roots_witness :
    (getWeChatPaths posix twoRootFS (Scanner.new "/data" true)).1 =
      ["/data", "/home/u/Documents/WeChat Files"] ∧
    isCacheValid (Scanner.new "/data" true) 0 = false ∧
    UnrelatedRoots pathSegments (getWeChatPaths posix twoRootFS (Scanner.new "/data" true)).1 ∧
    (scanWeChatFiles posix twoRootFS 9 0 1 (Scanner.new "/data" true)).map
        (fun r => r.1.map Entry.path) =
      some ["/data/wxid_1/FileStorage/Image/2024-01/photo.png",
        "/data/wxid_1/FileStorage/Image/2024-01/pic.jpg",
        "/data/wxid_1/msg/attach/sub/doc.txt",
        "/data/wxid_1/msg/attach/note.md",
        "/data/wxid_1/FileStorage/MsgAttach/grp1/File/2024-02/report.pdf",
        "/home/u/Documents/WeChat Files/wxid_2/FileStorage/Video/2024-03/clip.mp4"] ∧
    ((∃ r, scanWeChatFiles posix twoRootFS 9 0 1 (Scanner.new "/data" true) = some r) ∧
      ∀ fuel r s1 log, scanWeChatFiles posix twoRootFS fuel 0 1
          (Scanner.new "/data" true) = some (r, s1, log) → (r.map Entry.path).Nodup) :=
  ⟨by decide, by decide, by unfold UnrelatedRoots; decide, by decide,
    C6_distinct_paths_for_unrelated_roots posix twoRootFS pathSegments
      fixtureDepth 9 twoRootFS_pathModel twoRootFS_finiteTree (Scanner.new "/data" true) 0 1
      (by decide) (by unfold UnrelatedRoots; decide)⟩

end WXFiles
